import Mathlib

/-!
Verification development for the nfl_stats play-by-play core
(src/nfl_stats/pbp.py and the WPA slice of src/nfl_stats/boxscores.py).

Python values appearing in the dataframe rows are shallowly embedded as
the type PyVal; Python dicts / pandas Series rows as association lists
(Struct); the regular expressions of pbp.py as an executable backtracking
engine over an explicit regex AST, built exactly as the source builds its
pattern strings (all patterns are compiled with re.IGNORECASE, so literal
characters and the class [a-z] match case-insensitively); exceptions as
the Except monad.
-/

namespace NflStats

/-- Embedding of the Python runtime values that occur in play rows:
None, np.nan (a float), bool, int, float (finite floats modelled as
rationals) and str. -/
inductive PyVal where
  | pynone
  | nan
  | bool (b : Bool)
  | int (n : Int)
  | float (q : ℚ)
  | str (s : String)
deriving DecidableEq, Repr

/-- Python exceptions that the embedded code can raise. -/
inductive PErr where
  | valueError
  | typeError
  | keyError
  | unboundLocalError
deriving DecidableEq, Repr

instance {e a : Type} [DecidableEq e] [DecidableEq a] :
    DecidableEq (Except e a) := fun x y =>
  match x, y with
  | .ok u, .ok v =>
    if h : u = v then .isTrue (by rw [h]) else
      .isFalse (by intro hc; cases hc; exact h rfl)
  | .error u, .error v =>
    if h : u = v then .isTrue (by rw [h]) else
      .isFalse (by intro hc; cases hc; exact h rfl)
  | .ok _, .error _ => .isFalse (by intro hc; cases hc)
  | .error _, .ok _ => .isFalse (by intro hc; cases hc)

/-- pd.notnull: false exactly on None and np.nan. -/
def pyNotNull : PyVal → Bool
  | .pynone => false
  | .nan => false
  | _ => true

/-- pd.isnull. -/
def pyIsNull (v : PyVal) : Bool := !(pyNotNull v)

/-- Python truthiness. Note np.nan is truthy. -/
def pyTruthy : PyVal → Bool
  | .pynone => false
  | .nan => true
  | .bool b => b
  | .int n => n != 0
  | .float q => q != 0
  | .str s => s != ""

/-- Python (==): None == None is True, nan == anything is False,
booleans compare equal to the ints/floats 0/1, numbers compare by value,
strings by contents; mixed remaining cases are False. -/
def pyEq : PyVal → PyVal → Bool
  | .pynone, .pynone => true
  | .nan, _ => false
  | _, .nan => false
  | .bool a, .bool b => a == b
  | .bool a, .int m => (if a then (1 : Int) else 0) == m
  | .int n, .bool b => n == (if b then (1 : Int) else 0)
  | .bool a, .float y => (if a then (1 : ℚ) else 0) == y
  | .float x, .bool b => x == (if b then (1 : ℚ) else 0)
  | .int n, .int m => n == m
  | .int n, .float y => (n : ℚ) == y
  | .float x, .int m => x == (m : ℚ)
  | .float x, .float y => x == y
  | .str a, .str b => a == b
  | _, _ => false

/-- Python (or): returns the first operand if truthy, else the second. -/
def pyOr (a b : PyVal) : PyVal := if pyTruthy a then a else b

/-- Python (and): returns the first operand if falsy, else the second. -/
def pyAnd (a b : PyVal) : PyVal := if pyTruthy a then b else a

/-- A Python dict (or pandas Series row): association list, most recent
binding first; Struct.set replaces any previous binding. -/
def Struct := List (String × PyVal)

instance : DecidableEq Struct := by unfold Struct; infer_instance

def Struct.get (st : Struct) (k : String) : Option PyVal :=
  (List.find? (fun p => p.1 == k) st).map (·.2)

/-- dict.get with the default None. -/
def Struct.getD (st : Struct) (k : String) : PyVal :=
  (st.get k).getD .pynone

def Struct.set (st : Struct) (k : String) (v : PyVal) : Struct :=
  (k, v) :: List.filter (fun p => p.1 != k) st

/-- dict.update: apply all bindings of the second dict. -/
def Struct.update (st : Struct) (other : List (String × PyVal)) : Struct :=
  other.foldl (fun s p => s.set p.1 p.2) st

end NflStats

namespace NflStats

/-!  A backtracking regex engine for the constructs used in pbp.py.
Alternation tries the left branch first, greedy repetition tries the
longest first, lazy repetition the shortest first, exactly as Python's
re module behaves on these patterns.  -/

/-- Regex AST: empty, single-character class, sequence, prioritized
alternation, named capturing group, greedy star, lazy star. -/
inductive RE where
  | eps
  | cls (p : Char → Bool)
  | seq (a b : RE)
  | alt (a b : RE)
  | grp (name : String) (a : RE)
  | starG (a : RE)
  | starL (a : RE)

/-- Captured groups along a match path: (name, text), most recent first. -/
abbrev Caps := List (String × String)

/-- Size of a regex, used only to bound the matching fuel. -/
def RE.size : RE → Nat
  | .eps => 1
  | .cls _ => 1
  | .seq a b => a.size + b.size + 1
  | .alt a b => a.size + b.size + 1
  | .grp _ a => a.size + 1
  | .starG a => a.size + 1
  | .starL a => a.size + 1

/-- Backtracking matcher in continuation-passing style, structurally
recursive on a fuel that decreases once per syntactic-nesting step and
per star unfolding.  Along any single backtracking path the fuel spent
is bounded by the regex size plus one star unfolding per consumed
character (no star in pbp.py has a nullable body), so the fuel used by
REmatchHere below is a strict over-approximation and the behavior is
exactly that of Python's backtracking on these patterns. -/
def REmat : Nat → RE → List Char → Caps → (List Char → Caps → Option Caps) →
    Option Caps
  | 0, _, _, _, _ => none
  | fuel + 1, re, s, g, k =>
    match re with
    | .eps => k s g
    | .cls p =>
      match s with
      | [] => none
      | c :: rest => if p c then k rest g else none
    | .seq a b => REmat fuel a s g (fun s' g' => REmat fuel b s' g' k)
    | .alt a b => (REmat fuel a s g k).orElse (fun _ => REmat fuel b s g k)
    | .grp n a =>
      REmat fuel a s g
        (fun s' g' => k s' ((n, String.mk (s.take (s.length - s'.length))) :: g'))
    | .starG a =>
      (REmat fuel a s g (fun s' g' => REmat fuel (.starG a) s' g' k)).orElse
        (fun _ => k s g)
    | .starL a =>
      (k s g).orElse
        (fun _ => REmat fuel a s g (fun s' g' => REmat fuel (.starL a) s' g' k))

/-- Attempt a match of the regex at the start of the input (Python
re.match / an anchored search). -/
def REmatchHere (r : RE) (s : List Char) : Option Caps :=
  REmat ((r.size + 1) * (s.length + 2)) r s [] (fun _ g => some g)

/-- Python re.search: try a match at each start position, leftmost wins. -/
def REsearchAux (r : RE) : List Char → Option Caps
  | [] => REmatchHere r []
  | c :: rest =>
    match REmatchHere r (c :: rest) with
    | some g => some g
    | none => REsearchAux r rest

def REsearch (r : RE) (s : List Char) : Option Caps := REsearchAux r s

/-- Names of all capturing groups of a regex, in syntactic order
(re.Match.groupdict lists every named group, unmatched ones as None). -/
def REnames : RE → List String
  | .eps => []
  | .cls _ => []
  | .seq a b => REnames a ++ REnames b
  | .alt a b => REnames a ++ REnames b
  | .grp n a => n :: REnames a
  | .starG a => REnames a
  | .starL a => REnames a

/-- match.groupdict(): every named group of the regex, mapped to its
captured text or None. -/
def groupdict (r : RE) (caps : Caps) : List (String × PyVal) :=
  (REnames r).map (fun n =>
    (n, match caps.lookup n with
        | some v => PyVal.str v
        | none => PyVal.pynone))

/-! Smart constructors mirroring the regex string syntax. -/

/-- Concatenation of a list of regexes. -/
def REcat (l : List RE) : RE := l.foldr .seq .eps

/-- A literal character under re.IGNORECASE. -/
def RElit (c : Char) : RE := .cls (fun x => x.toLower == c.toLower)

/-- A literal string under re.IGNORECASE. -/
def REstr (s : String) : RE := REcat (s.data.map RElit)

/-- Prioritized alternation of a list (leftmost alternative first). -/
def REaltList : List RE → RE
  | [] => .eps
  | [r] => r
  | r :: rest => .alt r (REaltList rest)

/-- Greedy (?:...)? -/
def REoptG (a : RE) : RE := .alt a .eps

/-- Greedy + -/
def REplusG (a : RE) : RE := .seq a (.starG a)

/-- Lazy +? -/
def REplusL (a : RE) : RE := .seq a (.starL a)

/-- Exactly n copies. -/
def REexact : Nat → RE → RE
  | 0, _ => .eps
  | n + 1, a => .seq a (REexact n a)

/-- Greedy at-most-n copies (longest first, as Python tries). -/
def REupTo : Nat → RE → RE
  | 0, _ => .eps
  | n + 1, a => .alt (.seq a (REupTo n a)) .eps

/-- Greedy bounded repetition a{m,n}. -/
def RErange (m n : Nat) (a : RE) : RE := .seq (REexact m a) (REupTo (n - m) a)

/-! Character classes used by pbp.py (under re.IGNORECASE). -/

/-- The class . (any character except newline). -/
def dotC : RE := .cls (fun c => c != '\n')

/-- The class backslash-d. -/
def digitC : RE := .cls Char.isDigit

/-- The class backslash-S (non-whitespace). -/
def nonSpaceC : RE := .cls (fun c => !c.isWhitespace)

/-- The class backslash-s (whitespace). -/
def spaceC : RE := .cls Char.isWhitespace

/-- The class backslash-w (word character). -/
def wordC : RE := .cls (fun c => c.isAlphanum || c == '_')

/-- The class [a-z] under IGNORECASE (ascii letters of either case). -/
def azC : RE := .cls (fun c => 'a' ≤ c.toLower && c.toLower ≤ 'z')

/-- The negated class excluding open-parenthesis and comma. -/
def noParenCommaC : RE := .cls (fun c => !(c == '(' || c == ','))

end NflStats

namespace NflStats

/-! The regular expressions of parse_play_details (src/nfl_stats/pbp.py),
transcribed pattern-by-pattern from the strings the source builds.  All
are compiled with re.IGNORECASE. -/

/-- The pattern for a signed integer (a minus sign, optional, then one
or more digits). -/
def signedNum : RE := REcat [REoptG (RElit '-'), REplusG digitC]

/-- playerRE: six to eight non-space characters then two digits. -/
def playerRE : RE := .seq (RErange 6 8 nonSpaceC) (REexact 2 digitC)

/-- challengeRE. -/
def challengeRE : RE := REcat [
  REplusG dotC, REstr ". ",
  .grp "challenger" (REplusL dotC),
  REstr " challenged", .starL dotC, REstr " the play was ",
  .grp "callUpheld" (.alt (REstr "upheld") (REstr "overturned")),
  RElit '.']

/-- The rushOpt alternation, in RUSH_OPTS key order. -/
def rushOptAlts : RE := REaltList [
  REstr "left end", REstr "left tackle", REstr "left guard",
  REstr "up the middle", REstr "middle",
  REstr "right end", REstr "right tackle", REstr "right guard"]

/-- The passOpt alternation, in PASS_OPTS key order. -/
def passOptAlts : RE := REaltList [
  REstr "short left", REstr "short middle", REstr "short right",
  REstr "deep left", REstr "deep middle", REstr "deep right"]

/-- tackleRE (shared sub-pattern). -/
def tackleRE : RE := REoptG (REcat [
  REstr " (tackle by ", .grp "tackler1" playerRE,
  REoptG (REcat [REstr " and ", .grp "tackler2" playerRE]),
  RElit ')'])

/-- fumbleRE (shared sub-pattern). -/
def fumbleRE : RE := REoptG (REcat [
  REoptG (RElit '.'), REoptG (RElit ' '),
  .grp "fumbler" playerRE, REstr " fumbles",
  REoptG (REcat [REstr " (forced by ", .grp "fumbForcer" playerRE, RElit ')']),
  REoptG (REcat [.starG dotC, REstr ", recovered by ",
                 .grp "fumbRecoverer" playerRE, REstr " at "]),
  REoptG (REstr ", ball out of bounds at "),
  REoptG (REcat [REoptG (.grp "fumbRecFieldSide" (REplusG azC)),
                 REoptG (RElit '-'),
                 .grp "fumbRecYdLine" signedNum]),
  REoptG (REcat [REstr " and returned for ",
                 .grp "fumbRetYds" (REcat [REoptG (RElit '-'), .starG digitC]),
                 REstr " yards"])])

/-- tdSafetyRE (shared sub-pattern). -/
def tdSafetyRE : RE := REoptG (.alt
  (.grp "isTD" (REstr ", touchdown"))
  (.grp "isSafety" (REstr ", safety")))

/-- penaltyRE (shared sub-pattern; penOn allows the empty alternative). -/
def penaltyRE : RE := REoptG (REcat [
  .starL dotC, REstr ". Penalty on ",
  .grp "penOn" (.alt playerRE .eps),
  REstr ": ",
  .grp "penalty" (REplusG noParenCommaC),
  .alt (REcat [REstr " (", .grp "penDeclined" (REstr "Declined"), RElit ')'])
       (REcat [REstr ", ", .grp "penYds" (.starG digitC),
               REstr " yard", REoptG (RElit 's')]),
  REoptG (REstr " (no play)")])

/-- rushRE. -/
def rushRE : RE := REcat [
  .grp "rusher" playerRE,
  REoptG (.seq (RElit ' ') (.grp "rushDir" rushOptAlts)),
  REoptG (REcat [
    REstr " for ",
    .alt (REcat [.grp "rushYds" signedNum, REstr " yard", REoptG (RElit 's')])
         (REstr "no gain"),
    tackleRE, fumbleRE, tdSafetyRE, penaltyRE])]

/-- sackRE (pass sub-pattern). -/
def sackRE : RE := REcat [
  REstr "sacked ",
  REoptG (REcat [REstr "by ", .grp "sacker1" playerRE,
                 REoptG (REcat [REstr " and ", .grp "sacker2" playerRE]),
                 RElit ' ']),
  REstr "for ", .grp "sackYds" signedNum, REstr " yard", REoptG (RElit 's')]

/-- completeRE (pass sub-pattern). -/
def completeRE : RE := REcat [
  REstr "pass ",
  .grp "isComplete" (.seq (REoptG (REstr "in")) (REstr "complete"))]

/-- targetedRE (pass sub-pattern). -/
def targetedRE : RE := REoptG (REcat [
  RElit ' ',
  REoptG (.alt (REstr "to ") (REstr "intended for ")),
  .grp "target" playerRE])

/-- passYardsRE (pass sub-pattern; not optional as a whole). -/
def passYardsRE : RE := REcat [
  REstr " for ",
  .alt (REcat [.grp "passYds" signedNum, REstr " yard", REoptG (RElit 's')])
       (REstr "no gain")]

/-- intRE (pass sub-pattern). -/
def intRE : RE := REoptG (REcat [
  REstr " is intercepted by ", .grp "interceptor" playerRE, REstr " at ",
  REoptG (REcat [REoptG (.grp "intFieldSide" (.starG azC)),
                 REoptG (RElit '-'),
                 .grp "intYdLine" (REcat [REoptG (RElit '-'), .starG digitC])]),
  REoptG (REcat [REstr " and returned for ", .grp "intRetYds" signedNum,
                 REstr " yard", REoptG (RElit 's'), REoptG (RElit '.')])])

/-- throwRE (pass sub-pattern). -/
def throwRE : RE := REcat [
  completeRE,
  REoptG (.seq (RElit ' ') (.grp "passLoc" passOptAlts)),
  targetedRE,
  REoptG (.seq (.alt passYardsRE intRE) tackleRE)]

/-- passRE. -/
def passRE : RE := REcat [
  .grp "passer" playerRE, RElit ' ',
  .alt sackRE throwRE,
  REoptG (REcat [fumbleRE, tdSafetyRE, penaltyRE])]

/-- kickoffRE. -/
def kickoffRE : RE := REcat [
  .grp "koKicker" playerRE,
  REstr " kicks ", .alt (REstr "off") (.grp "isOnside" (REstr "onside")),
  RElit ' ',
  .alt (REcat [.grp "koYds" (REplusG digitC), REstr " yard", REoptG (RElit 's')])
       (REstr "no gain"),
  REoptG (REcat [
    REstr ", ", .alt (REstr "returned") (REstr "recovered"), REstr " by ",
    .grp "koReturner" playerRE,
    REoptG (REcat [REstr " for ",
      .alt (REcat [.grp "koRetYds" signedNum, REstr " yard", REoptG (RElit 's')])
           (REstr "no gain")])]),
  REoptG (REcat [
    .grp "isMuffedCatch" (REstr ", muffed catch by "),
    .grp "muffedBy" playerRE, RElit ',',
    REoptG (REcat [REstr " recovered by ", .grp "muffRecoverer" playerRE]),
    REoptG (REcat [REstr " and returned for ",
      .alt (REcat [.grp "muffRetYds" signedNum, REstr " yards"])
           (REstr "no gain")])]),
  REoptG (REcat [REstr ", recovered by ", .grp "onsideRecoverer" playerRE]),
  REoptG (.grp "oob" (REstr ", out of bounds")),
  REoptG (.grp "isTouchback" (REstr ", touchback")),
  tackleRE, fumbleRE, tdSafetyRE, penaltyRE]

/-- timeoutRE. -/
def timeoutRE : RE := REcat [
  REstr "Timeout #", .grp "timeoutNum" digitC,
  REstr " by ", .grp "timeoutTeam" (REplusG dotC)]

/-- fgRE. -/
def fgRE : RE := REcat [
  .grp "fgKicker" playerRE,
  RElit ' ', .grp "fgDist" (REplusG digitC), REstr " yard field goal ",
  .grp "fgGood" (.alt (REstr "good") (REstr "no good")),
  REoptG (REcat [REstr ", ", .grp "isBlocked" (REstr "blocked"),
                 REstr " by ", .grp "fgBlocker" playerRE]),
  REoptG (REcat [REstr ", recovered by ", .grp "fgBlockRecoverer" playerRE]),
  REoptG (REcat [REstr " and returned for ",
    .alt (REcat [.grp "fgBlockRetYds" signedNum, REstr " yard", REoptG (RElit 's')])
         (REstr "no gain")]),
  tdSafetyRE, penaltyRE]

/-- puntRE. -/
def puntRE : RE := REcat [
  .starL dotC, .grp "punter" playerRE,
  .alt
    (REcat [REstr " punts, ", .grp "isBlocked" (REstr "blocked"),
            REstr " by ", .grp "puntBlocker" playerRE,
            REoptG (REcat [REstr ", recovered by ",
              .grp "puntBlockRecoverer" playerRE,
              REoptG (REcat [REstr " and returned ",
                .alt (REcat [.grp "puntBlockRetYds" signedNum, REstr " yards"])
                     (REstr "no gain")])])])
    (REcat [REstr " punts ", .grp "puntYds" (REplusG digitC),
            REstr " yard", REoptG (RElit 's')]),
  REoptG (REaltList [
    REcat [REstr ", ", .grp "isFairCatch" (REstr "fair catch"),
           REstr " by ", .grp "fairCatcher" playerRE],
    REcat [REstr ", ", .grp "oob" (REstr "out of bounds")],
    REcat [.grp "isMuffedCatch" (REstr ", muffed catch by "),
           .grp "muffedBy" playerRE, REstr ", recovered by ",
           .grp "muffRecoverer" playerRE, REstr " and returned for ",
           .alt (REcat [.grp "muffRetYds" (REplusG digitC), REstr " yards"])
                (REstr "no gain")],
    REcat [REstr ", returned by ", .grp "puntReturner" playerRE,
           REstr " for ",
           .alt (REcat [.grp "puntRetYds" signedNum, REstr " yard",
                        REoptG (RElit 's')])
                (REstr "no gain")],
    .grp "isTouchback" (REstr ", touchback")]),
  tackleRE, fumbleRE, tdSafetyRE, penaltyRE]

/-- kneelRE. -/
def kneelRE : RE := REcat [
  .grp "kneelQB" playerRE, REstr " kneels for ",
  .alt (REcat [.grp "kneelYds" signedNum, REstr " yard", REoptG (RElit 's')])
       (REstr "no gain")]

/-- spikeRE. -/
def spikeRE : RE := REcat [.grp "spikeQB" playerRE, REstr " spiked the ball"]

/-- extraPointRE. -/
def extraPointRE : RE := REcat [
  REoptG (REcat [.grp "xpKicker" playerRE, REstr " kicks"]),
  REoptG (RElit ' '),
  REstr "extra point ",
  .grp "xpGood" (.alt (REstr "good") (REstr "no good"))]

/-- twoPointRE. -/
def twoPointRE : RE := REcat [
  REstr "Two Point Attempt: ", .grp "twoPoint" (.starL dotC),
  REoptG (RElit ','), REplusG spaceC, REstr "conversion", REplusG spaceC,
  .grp "twoPointSuccess" (.alt (REstr "succeeds") (REstr "fails"))]

/-- psPenaltyRE.  The source pattern is anchored with a caret and used
with re.search without MULTILINE, so it can only match at the start of
the string; the anchor is realized by matching with REmatchHere. -/
def psPenaltyRE : RE := REcat [
  REstr "Penalty on ",
  .grp "penOn" (.alt playerRE (REexact 3 wordC)),
  REstr ": ",
  .grp "penalty" (REplusG noParenCommaC),
  REaltList [
    REcat [REstr " (", .grp "penDeclined" (REstr "Declined"), RElit ')'],
    REcat [REstr ", ", .grp "penYds" (.starG digitC),
           REstr " yard", REoptG (RElit 's')],
    REcat [.starL dotC, REstr " (no play)"]]]

end NflStats

namespace NflStats

/-! The classifier parse_play_details (src/nfl_stats/pbp.py lines 51-353). -/

/-- Whether the first list is a prefix of the second (case-sensitive,
used for Python substring tests, which are case-sensitive even though
the regexes are not). -/
def startsWithL : List Char → List Char → Bool
  | [], _ => true
  | _ :: _, [] => false
  | p :: ps, c :: cs => p == c && startsWithL ps cs

/-- Python str.index / str.find: position of the first occurrence of a
substring, if any. -/
def findSubFrom (pat : List Char) : List Char → Option Nat
  | [] => if startsWithL pat [] then some 0 else none
  | c :: rest =>
    if startsWithL pat (c :: rest) then some 0
    else (findSubFrom pat rest).map (· + 1)

/-- Python (sub in s) substring membership. -/
def containsSub (pat s : List Char) : Bool := (findSubFrom pat s).isSome

/-- Python str.strip(). -/
def stripBoth (s : List Char) : List Char :=
  ((s.dropWhile Char.isWhitespace).reverse.dropWhile Char.isWhitespace).reverse

/-- The challenge-handling preamble of parse_play_details: search
challengeRE, set isChallenge (and the challenge groups), and when the
original string contains the substring overturned, truncate the details
to what follows the first occurrence of the substring overturned
followed by a period; str.index raises ValueError when that substring
is absent.  Afterwards isLateral is computed from the (possibly
truncated) details. -/
def challengePre (cs : List Char) : Except PErr (Struct × List Char) :=
  match REsearch challengeRE cs with
  | some m =>
    let st : Struct :=
      Struct.update (Struct.set [] "isChallenge" (.bool true))
        (groupdict challengeRE m)
    if containsSub "overturned".data cs then
      match findSubFrom "overturned.".data cs with
      | some idx =>
        let cs2 := stripBoth (cs.drop (idx + "overturned.".data.length))
        .ok (st.set "isLateral" (.bool (containsSub "lateral".data cs2)), cs2)
      | none => .error .valueError
    else
      .ok (st.set "isLateral" (.bool (containsSub "lateral".data cs)), cs)
  | none =>
    .ok ((Struct.set [] "isChallenge" (.bool false)).set "isLateral"
          (.bool (containsSub "lateral".data cs)), cs)

/-- Setting the category flag and merging match.groupdict(), as each
category branch of parse_play_details does. -/
def mkCapStruct (st : Struct) (flag : String) (r : RE) (m : Caps) : Struct :=
  (st.set flag (.bool true)).update (groupdict r m)

/-- The ordered cascade of category matchers of parse_play_details
(lines 261-353): kickoff, timeout, field goal, punt, kneel, spike,
extra point, two-point conversion, pass, pre-snap penalty, run; the
first match returns, and no match returns None.  The two-point branch
recursively parses the captured inner play text with the parser passed
as the parameter inner. -/
def tryCatsWith (inner : List Char → Except PErr (Option Struct))
    (st : Struct) (cs : List Char) : Except PErr (Option Struct) :=
  match REsearch kickoffRE cs with
  | some m => .ok (some (mkCapStruct st "isKickoff" kickoffRE m))
  | none =>
  match REsearch timeoutRE cs with
  | some m => .ok (some (mkCapStruct st "isTimeout" timeoutRE m))
  | none =>
  match REsearch fgRE cs with
  | some m => .ok (some (mkCapStruct st "isFieldGoal" fgRE m))
  | none =>
  match REsearch puntRE cs with
  | some m => .ok (some (mkCapStruct st "isPunt" puntRE m))
  | none =>
  match REsearch kneelRE cs with
  | some m => .ok (some (mkCapStruct st "isKneel" kneelRE m))
  | none =>
  match REsearch spikeRE cs with
  | some m => .ok (some (mkCapStruct st "isSpike" spikeRE m))
  | none =>
  match REsearch extraPointRE cs with
  | some m => .ok (some (mkCapStruct st "isXP" extraPointRE m))
  | none =>
  match REsearch twoPointRE cs with
  | some m =>
    let st2 := (st.set "isTwoPoint" (.bool true)).set "twoPointSuccess"
      (match m.lookup "twoPointSuccess" with
       | some v => PyVal.str v
       | none => PyVal.pynone)
    (match inner ((m.lookup "twoPoint").getD "").data with
     | .error e => .error e
     | .ok (some realPlay) => .ok (some (st2.update realPlay))
     | .ok Option.none => .ok (some st2))
  | none =>
  match REsearch passRE cs with
  | some m => .ok (some (mkCapStruct st "isPass" passRE m))
  | none =>
  match REmatchHere psPenaltyRE cs with
  | some m => .ok (some (mkCapStruct st "isPresnapPenalty" psPenaltyRE m))
  | none =>
  match REsearch rushRE cs with
  | some m => .ok (some (mkCapStruct st "isRun" rushRE m))
  | none => .ok Option.none

/-- Core of parse_play_details on an actual string (after the
isinstance check): challenge preamble, then the eleven category
matchers in source order.  The fuel only bounds the depth of the
two-point-conversion recursion; the recursive call is on the captured
inner text, which is strictly shorter than the match it came from, so
any fuel of at least the input length reproduces the Python behavior. -/
def parseCoreAux : Nat → List Char → Except PErr (Option Struct)
  | 0, _ => .ok Option.none
  | fuel + 1, cs =>
    match challengePre cs with
    | .error e => .error e
    | .ok (st, cs2) => tryCatsWith (fun t => parseCoreAux fuel t) st cs2

/-- parse_play_details: returns None for non-string input, otherwise
parses the string. -/
def parsePlayDetails (details : PyVal) : Except PErr (Option Struct) :=
  match details with
  | .str s => parseCoreAux (s.length + 1) s.data
  | _ => .ok Option.none

/-- The eleven play categories, in the priority order of the source. -/
inductive PlayCat where
  | kickoff | timeout | fieldGoal | punt | kneel | spike | extraPoint
  | twoPoint | pass | presnapPenalty | run
deriving DecidableEq, Repr

/-- The regex each category matcher uses. -/
def catRegex : PlayCat → RE
  | .kickoff => kickoffRE
  | .timeout => timeoutRE
  | .fieldGoal => fgRE
  | .punt => puntRE
  | .kneel => kneelRE
  | .spike => spikeRE
  | .extraPoint => extraPointRE
  | .twoPoint => twoPointRE
  | .pass => passRE
  | .presnapPenalty => psPenaltyRE
  | .run => rushRE

/-- The discriminator key each category branch sets. -/
def catFlag : PlayCat → String
  | .kickoff => "isKickoff"
  | .timeout => "isTimeout"
  | .fieldGoal => "isFieldGoal"
  | .punt => "isPunt"
  | .kneel => "isKneel"
  | .spike => "isSpike"
  | .extraPoint => "isXP"
  | .twoPoint => "isTwoPoint"
  | .pass => "isPass"
  | .presnapPenalty => "isPresnapPenalty"
  | .run => "isRun"

/-- Attempt one category matcher on a description (the pre-snap penalty
pattern is anchored at the start; all others are unanchored searches). -/
def catMatch (c : PlayCat) (cs : List Char) : Option Caps :=
  match c with
  | .presnapPenalty => REmatchHere psPenaltyRE cs
  | _ => REsearch (catRegex c) cs

/-- The fixed priority order of the category matchers. -/
def catPriority : List PlayCat :=
  [.kickoff, .timeout, .fieldGoal, .punt, .kneel, .spike, .extraPoint,
   .twoPoint, .pass, .presnapPenalty, .run]

/-- The first category in priority order whose matcher succeeds,
together with its captures. -/
def firstCat (cs : List Char) : Option (PlayCat × Caps) :=
  catPriority.findSome? (fun c => (catMatch c cs).map (fun m => (c, m)))

/-- The structured capture a given category's branch would return:
flag plus groupdict, with the two-point branch recursively parsing the
captured inner play text through the parser inner.  This depends only
on the given category's match, never on any later matcher. -/
def catResult (inner : List Char → Except PErr (Option Struct))
    (st : Struct) (c : PlayCat) (m : Caps) : Except PErr (Option Struct) :=
  match c with
  | .twoPoint =>
    let st2 := (st.set "isTwoPoint" (.bool true)).set "twoPointSuccess"
      (match m.lookup "twoPointSuccess" with
       | some v => PyVal.str v
       | none => PyVal.pynone)
    (match inner ((m.lookup "twoPoint").getD "").data with
     | .error e => .error e
     | .ok (some realPlay) => .ok (some (st2.update realPlay))
     | .ok Option.none => .ok (some st2))
  | _ => .ok (some (mkCapStruct st (catFlag c) (catRegex c) m))

end NflStats

namespace NflStats

/-! The field normalizer: _loc_to_features and _clean_features
(src/nfl_stats/pbp.py lines 356-503). -/

/-- The RUSH_OPTS lookup table of pbp.py. -/
def RUSH_OPTS : List (String × String) := [
  ("left end", "LE"), ("left tackle", "LT"), ("left guard", "LG"),
  ("up the middle", "M"), ("middle", "M"),
  ("right end", "RE"), ("right tackle", "RT"), ("right guard", "RG")]

/-- The PASS_OPTS lookup table of pbp.py. -/
def PASS_OPTS : List (String × String) := [
  ("short left", "SL"), ("short middle", "SM"), ("short right", "SR"),
  ("deep left", "DL"), ("deep middle", "DM"), ("deep right", "DR")]

/-- dict.get(key, np.nan) on such a table: non-string or unknown keys
give np.nan. -/
def optsLookup (table : List (String × String)) (v : PyVal) : PyVal :=
  match v with
  | .str s => match table.lookup s with
              | some t => .str t
              | none => .nan
  | _ => .nan

/-- Value of a string of digits. -/
def digitsToNat (ds : List Char) : Nat :=
  ds.foldl (fun a c => a * 10 + (c.toNat - 48)) 0

/-- Python int() applied to a string: strip, optional sign, digits. -/
def pyIntOfString (s : String) : Option Int :=
  match stripBoth s.data with
  | '-' :: ds =>
    if ds ≠ [] ∧ ds.all Char.isDigit then some (-(digitsToNat ds : Int)) else none
  | '+' :: ds =>
    if ds ≠ [] ∧ ds.all Char.isDigit then some (digitsToNat ds : Int) else none
  | ds =>
    if ds ≠ [] ∧ ds.all Char.isDigit then some (digitsToNat ds : Int) else none

/-- Truncation toward zero, as Python int() does on floats. -/
def ratTrunc (q : ℚ) : Int :=
  if 0 ≤ q.num then (q.num.toNat / q.den : Nat) else -((-q.num).toNat / q.den : Nat)

/-- Python int(): TypeError on None, ValueError on nan and unparsable
strings, truncation on floats, identity on bool/int. -/
def pyInt : PyVal → Except PErr Int
  | .pynone => .error .typeError
  | .nan => .error .valueError
  | .bool b => .ok (if b then 1 else 0)
  | .int n => .ok n
  | .float q => .ok (ratTrunc q)
  | .str s => match pyIntOfString s with
              | some n => .ok n
              | none => .error .valueError

/-- Powers of ten. -/
def pow10 : Nat → Nat
  | 0 => 1
  | n + 1 => 10 * pow10 n

/-- Python float() applied to a string: strip, optional sign, digits
with an optional decimal point (no exponents are needed for the rows
considered here). -/
def pyFloatOfString (s : String) : Option ℚ :=
  let core : List Char → Option ℚ := fun ds =>
    match ds.span Char.isDigit with
    | (ipart, rest) =>
      match rest with
      | [] => if ipart ≠ [] then some (mkRat (digitsToNat ipart) 1) else none
      | '.' :: fpart =>
        if (ipart ≠ [] ∨ fpart ≠ []) ∧ fpart.all Char.isDigit then
          some (mkRat (digitsToNat ipart * pow10 fpart.length +
                       digitsToNat fpart) (pow10 fpart.length))
        else none
      | _ => none
  match stripBoth s.data with
  | '-' :: ds => (core ds).map (fun q => -q)
  | '+' :: ds => core ds
  | ds => core ds

/-- Python float(): TypeError on None, nan stays nan, numbers and
parsable strings convert. -/
def pyFloat : PyVal → Except PErr PyVal
  | .pynone => .error .typeError
  | .nan => .ok .nan
  | .bool b => .ok (.float (if b then 1 else 0))
  | .int n => .ok (.float (n : ℚ))
  | .float q => .ok (.float q)
  | .str s => match pyFloatOfString s with
              | some q => .ok (.float q)
              | none => .error .valueError

/-- Subtraction of two float-or-nan values (nan propagates), used for
the EPA columns. -/
def pySubF : PyVal → PyVal → PyVal
  | .float x, .float y => .float (x - y)
  | _, _ => .nan

/-- Python str.split() with no argument: split on whitespace runs. -/
def splitWSAcc : List Char → List Char → List (List Char)
  | [], acc => if acc.isEmpty then [] else [acc.reverse]
  | c :: rest, acc =>
    if c.isWhitespace then
      if acc.isEmpty then splitWSAcc rest []
      else acc.reverse :: splitWSAcc rest []
    else splitWSAcc rest (c :: acc)

def splitWS (s : List Char) : List (List Char) := splitWSAcc s []

/-- _loc_to_features (pbp.py lines 480-502), returning the Python list
or tuple of feature values.  Falsy locations (None, empty string, zero)
give (nan, nan); a truthy string is stripped and split: with a space,
the first token is lowercased and the second converted with int()
(ValueError on failure) and any further tokens are passed through;
without a space the whole string is int()-converted with a missing
side.  A truthy float (np.nan included) returns (nan, 50).  Any other
truthy value reaches the final return with the variable r unbound. -/
def locToFeatures (loc : PyVal) : Except PErr (List PyVal) :=
  if pyTruthy loc then
    match loc with
    | .str s0 =>
      let sl := stripBoth s0.data
      if sl.contains ' ' then
        match splitWS sl with
        | p0 :: p1 :: rest =>
          match pyInt (.str (String.mk p1)) with
          | .ok n =>
            .ok (.str (String.mk (p0.map Char.toLower)) :: .int n ::
                 rest.map (fun w => PyVal.str (String.mk w)))
          | .error e => .error e
        | _ => .error .valueError
      else
        match pyInt (.str (String.mk sl)) with
        | .ok n => .ok [.nan, .int n]
        | .error e => .error e
    | .float _ => .ok [.nan, .int 50]
    | .nan => .ok [.nan, .int 50]
    | _ => .error .unboundLocalError
  else .ok [.nan, .nan]

/-- The bool_vars list of _clean_features. -/
def boolVars : List String := [
  "fgGood", "isBlocked", "isChallenge", "isComplete", "isFairCatch",
  "isFieldGoal", "isKickoff", "isKneel", "isLateral", "isNoPlay",
  "isPass", "isPresnapPenalty", "isPunt", "isRun", "isSack", "isSafety",
  "isSpike", "isTD", "isTimeout", "isTouchback", "isTwoPoint", "isXP",
  "isMuffedCatch", "oob", "penDeclined", "twoPointSuccess", "xpGood"]

/-- The int_vars list of _clean_features. -/
def intVars : List String := [
  "down", "fgBlockRetYds", "fgDist", "fumbRecYdLine", "fumbRetYds",
  "intRetYds", "intYdLine", "koRetYds", "koYds", "muffRetYds",
  "pbp_score_aw", "pbp_score_hm", "passYds", "penYds", "puntBlockRetYds",
  "puntRetYds", "puntYds", "quarter", "rushYds", "sackYds", "timeoutNum",
  "ydLine", "yds_to_go"]

/-- The float_vars list of _clean_features. -/
def floatVars : List String := ["exp_pts_after", "exp_pts_before", "home_wp"]

/-- The string_vars list of _clean_features. -/
def stringVars : List String := [
  "challenger", "detail", "fairCatcher", "fgBlockRecoverer",
  "fgBlocker", "fgKicker", "fieldSide", "fumbForcer",
  "fumbRecFieldSide", "fumbRecoverer", "fumbler", "intFieldSide",
  "interceptor", "kneelQB", "koKicker", "koReturner", "muffRecoverer",
  "muffedBy", "passLoc", "passer", "penOn", "penalty",
  "puntBlockRecoverer", "puntBlocker", "puntReturner", "punter",
  "qtr_time_remain", "rushDir", "rusher", "sacker1", "sacker2",
  "spikeQB", "tackler1", "tackler2", "target", "timeoutTeam",
  "xpKicker"]

/-- The fieldSide / ydLine derivation of _clean_features (lines
456-463): on an extra point both are forced missing and the location is
never consulted; otherwise the location is split by _loc_to_features
and the two-element result unpacked (a longer result raises ValueError
at the unpacking). -/
def fieldSideYdLine (isXPv loc : PyVal) : Except PErr (PyVal × PyVal) :=
  if pyTruthy isXPv then .ok (.nan, .nan)
  else
    match locToFeatures loc with
    | .ok [a, b] => .ok (a, b)
    | .ok _ => .error .valueError
    | .error e => .error e

/-- Python str.split(sep) for a one-character separator: split at every
occurrence, keeping empty pieces. -/
def splitOnCharAcc (sep : Char) : List Char → List Char → List (List Char)
  | [], acc => [acc.reverse]
  | c :: rest, acc =>
    if c == sep then acc.reverse :: splitOnCharAcc sep rest []
    else splitOnCharAcc sep rest (c :: acc)

def splitOnChar (sep : Char) (s : List Char) : List (List Char) :=
  splitOnCharAcc sep s []

/-- The secsElapsed computation of _clean_features (lines 464-468) for
a play whose clock string is present: split the clock on the colon into
exactly two int()-parsed fields (ValueError otherwise) and compute
quarter times 900 minus elapsed seconds; a nan quarter gives nan. -/
def secsElapsedOf (qv : PyVal) (s : String) : Except PErr PyVal :=
  match splitOnChar ':' s.data with
  | [ms, ss] =>
    (match pyInt (.str (String.mk ms)), pyInt (.str (String.mk ss)) with
     | .ok m, .ok sec =>
       .ok (match qv with
            | .int q => .int (q * 900 - m * 60 - sec)
            | _ => .nan)
     | _, _ => .error PErr.valueError)
  | _ => .error PErr.valueError

/-- The ptypes list of _clean_features. -/
def ptypes : List String := [
  "isKickoff", "isTimeout", "isFieldGoal", "isPunt", "isKneel",
  "isSpike", "isXP", "isTwoPoint", "isPresnapPenalty", "isPass",
  "isRun", "penalty"]

/-- _clean_features (pbp.py lines 356-477), statement by statement in
source order.  The assignment of the local variable named year and the
commented-out timeoutTeam mapping have no effect on the row and are
omitted. -/
def cleanFeatures (struct0 : Struct) : Except PErr Struct := do
  -- First, clean up play type bools
  let struct := ptypes.foldl (fun st pt =>
      match st.get pt with
      | some v => if pyNotNull v then st.set pt v else st.set pt (.bool false)
      | none => st.set pt (.bool false)) struct0
  -- Second, one-off cleanups
  let struct := struct.set "callUpheld"
    (.bool (pyEq (struct.getD "callUpheld") (.str "upheld")))
  let struct := struct.set "fgGood"
    (.bool (pyEq (struct.getD "fgGood") (.str "good")))
  let struct := struct.set "isBlocked"
    (.bool (pyEq (struct.getD "isBlocked") (.str "blocked")))
  let struct := struct.set "isComplete"
    (.bool (pyEq (struct.getD "isComplete") (.str "complete")))
  let struct := struct.set "isFairCatch"
    (.bool (pyEq (struct.getD "isFairCatch") (.str "fair catch")))
  let struct := struct.set "isMuffedCatch"
    (.bool (pyNotNull (struct.getD "isMuffedCatch")))
  let detailV := struct.getD "detail"
  let struct ←
    if pyTruthy detailV then
      match detailV with
      | .str s =>
        pure (struct.set "isNoPlay"
          (.bool (containsSub " (no play)".data s.data &&
                  !containsSub "penalty enforced in end zone".data s.data)))
      | _ => throw PErr.typeError
    else pure (struct.set "isNoPlay" (.bool false))
  let struct := struct.set "isOnside"
    (.bool (pyEq (struct.getD "isOnside") (.str "onside")))
  let struct := struct.set "isSack"
    (.bool (pyNotNull (struct.getD "sackYds")))
  let struct ←
    if pyEq (struct.getD "isSafety") (.str ", safety") then
      pure (struct.set "isSafety" (.bool true))
    else if pyTruthy detailV then
      match detailV with
      | .str s =>
        pure (struct.set "isSafety"
          (.bool (containsSub "enforced in end zone, safety".data s.data)))
      | _ => throw PErr.typeError
    else
      -- False or falsy-detail: the or-expression is the falsy detail itself
      pure (struct.set "isSafety" detailV)
  let struct := struct.set "isTD"
    (.bool (pyEq (struct.getD "isTD") (.str ", touchdown")))
  let struct := struct.set "isTouchback"
    (.bool (pyEq (struct.getD "isTouchback") (.str ", touchback")))
  let struct := struct.set "oob"
    (.bool (pyNotNull (struct.getD "oob")))
  let struct := struct.set "passLoc" (optsLookup PASS_OPTS (struct.getD "passLoc"))
  let struct ←
    if pyTruthy (struct.getD "isPass") then
      match struct.get "passYds" with
      | some p => pure (struct.set "passYds" (if pyNotNull p then p else .int 0))
      | none => throw PErr.keyError
    else pure struct
  let struct ←
    (let pen := struct.getD "penalty"
     if pyTruthy pen then
       match pen with
       | .str s => pure (struct.set "penalty" (.str (String.mk (stripBoth s.data))))
       | _ => throw PErr.typeError
     else pure (struct.set "penalty" .pynone))
  let struct := struct.set "penDeclined"
    (.bool (pyEq (struct.getD "penDeclined") (.str "Declined")))
  let struct ←
    match struct.get "quarter" with
    | none => throw PErr.keyError
    | some q => pure (if pyEq q (.str "OT") then struct.set "quarter" (.int 5) else struct)
  let struct := struct.set "rushDir" (optsLookup RUSH_OPTS (struct.getD "rushDir"))
  let struct ←
    if pyTruthy (struct.getD "isRun") then
      match struct.get "rushYds" with
      | some r => pure (struct.set "rushYds" (if pyNotNull r then r else .int 0))
      | none => throw PErr.keyError
    else pure struct
  let struct := struct.set "twoPointSuccess"
    (.bool (pyEq (struct.getD "twoPointSuccess") (.str "succeeds")))
  let struct := struct.set "xpGood"
    (.bool (pyEq (struct.getD "xpGood") (.str "good")))
  -- Third, ensure types are correct
  let struct := boolVars.foldl (fun st v =>
      st.set v (.bool (st.getD v == PyVal.bool true))) struct
  let struct := intVars.foldl (fun st v =>
      st.set v (match pyInt (st.getD v) with
                | .ok n => .int n
                | .error _ => .nan)) struct
  let struct := floatVars.foldl (fun st v =>
      st.set v (match pyFloat (st.getD v) with
                | .ok w => w
                | .error _ => .nan)) struct
  let struct := stringVars.foldl (fun st v =>
      match st.get v with
      | none => st.set v .nan
      | some w => if pyIsNull w then st.set v .nan else st) struct
  -- Fourth, derived helper variables
  let struct ←
    (match fieldSideYdLine (struct.getD "isXP") (struct.getD "location") with
     | .ok (a, b) => pure ((struct.set "fieldSide" a).set "ydLine" b)
     | .error e => throw e)
  let struct ←
    (let qtrem := struct.getD "qtr_time_remain"
     if pyNotNull qtrem then
       match struct.get "quarter", qtrem with
       | some qv, .str s =>
         (match secsElapsedOf qv s with
          | .ok v => pure (struct.set "secsElapsed" v)
          | .error e => throw e)
       | none, _ => throw PErr.keyError
       | _, _ => throw PErr.typeError
     else pure struct)
  let struct := struct.set "isInt"
    (.bool (pyNotNull (struct.getD "interceptor")))
  let struct := struct.set "isFumble"
    (.bool (pyNotNull (struct.getD "fumbler")))
  let struct := struct.set "isPenalty"
    (.bool (pyNotNull (struct.getD "penalty")))
  let struct := struct.set "team_epa"
    (pySubF (struct.getD "exp_pts_after") (struct.getD "exp_pts_before"))
  let struct := struct.set "opp_epa"
    (pySubF (struct.getD "exp_pts_before") (struct.getD "exp_pts_after"))
  pure struct

end NflStats

namespace NflStats

/-! The clock gap-filling of expand_details (pbp.py lines 40-45) over
the qtr_time_remain column, with each row's raw quarter value alongside. -/

/-- pandas fillna(method='bfill') on a column: null entries take the
next non-null value below, trailing nulls stay. -/
def pyBfill : List PyVal → List PyVal
  | [] => []
  | v :: rest =>
    let r := pyBfill rest
    (if pyIsNull v then
       match r.head? with
       | some w => if pyIsNull w then v else w
       | none => v
     else v) :: r

/-- pandas fillna(method='ffill') on a column. -/
def pyFfillAux : Option PyVal → List PyVal → List PyVal
  | _, [] => []
  | carry, v :: rest =>
    if pyIsNull v then
      match carry with
      | some w => w :: pyFfillAux carry rest
      | none => v :: pyFfillAux Option.none rest
    else v :: pyFfillAux (some v) rest

def pyFfill (l : List PyVal) : List PyVal := pyFfillAux Option.none l

/-- First non-null value of a column, if any. -/
def nextPresent : List PyVal → Option PyVal
  | [] => none
  | v :: rest => if pyIsNull v then nextPresent rest else some v

/-- Lines 41-45 of expand_details: the row-0 clock is assigned "15:00"
unconditionally, nulls are backward-filled, and each remaining null is
replaced by "0:00" when that row's quarter equals 4 and by "15:00"
otherwise.  Input: one (qtr_time_remain, quarter) pair per play in game
order; output: the filled qtr_time_remain column. -/
def fillClockCol (rows : List (PyVal × PyVal)) : List PyVal :=
  let col := (rows.map (·.1)).set 0 (.str "15:00")
  let col := pyBfill col
  (col.zip (rows.map (·.2))).map (fun p =>
    if pyIsNull p.1 then
      (if pyEq p.2 (.int 4) then .str "0:00" else .str "15:00")
    else p.1)

/-- The clock gap-filling as the specification text describes it
(spec section 4.3.1), stated for comparison with fillClockCol: seed the
first play to "15:00" only if missing, forward-fill, and replace any
value still missing by "0:00" when the quarter is 4, else "15:00". -/
def fillClockColSpec (rows : List (PyVal × PyVal)) : List PyVal :=
  let col := match rows.map (·.1) with
    | [] => []
    | v :: rest => (if pyIsNull v then PyVal.str "15:00" else v) :: rest
  let col := pyFfill col
  (col.zip (rows.map (·.2))).map (fun p =>
    if pyIsNull p.1 then
      (if pyEq p.2 (.int 4) then .str "0:00" else .str "15:00")
    else p.1)

end NflStats

namespace NflStats

/-! The WPA slice of BoxScore.pbp (src/nfl_stats/boxscores.py lines
378-409): diff, lag, forward-fill, and the first-play, last-play and
timeout border fixes of the home_wp / home_wpa columns.  The functions
_add_team_columns, initialWinProb and _add_team_features are referenced
through the absent sportsref package and are not part of this
repository; per the specification the initial-win-probability model is
an external collaborator (a point spread to initial win probability
function), passed here as the parameter initWP, and the team-column
steps do not touch the win-probability columns and are not modelled.
The score columns and the distToGoal fill do not interact with the
win-probability columns and are likewise outside this slice. -/

/-- The columns of one play row that the WPA logic reads: the raw
post-play home win probability (None for NaN), the isTimeout flag, and
secsElapsed. -/
structure AsmRow where
  home_wp : Option ℚ
  isTimeout : Bool
  secsElapsed : Option Int
deriving DecidableEq, Repr

/-- NaN-propagating subtraction of two cells. -/
def osub : Option ℚ → Option ℚ → Option ℚ
  | some a, some b => some (a - b)
  | _, _ => none

/-- pandas Series.diff(): first entry NaN, then successive differences
(NaN when either operand is NaN). -/
def diffCol (l : List (Option ℚ)) : List (Option ℚ) :=
  match l with
  | [] => []
  | _ :: t => Option.none :: (t.zip l).map (fun p => osub p.1 p.2)

/-- pandas Series.shift(1): prepend NaN, drop the last entry. -/
def shiftCol (l : List (Option ℚ)) : List (Option ℚ) :=
  match l with
  | [] => []
  | _ => Option.none :: l.dropLast

/-- pandas fillna(method='ffill') for rational cells. -/
def ffillQ : Option ℚ → List (Option ℚ) → List (Option ℚ)
  | _, [] => []
  | carry, v :: rest =>
    match v with
    | some x => some x :: ffillQ (some x) rest
    | none => carry :: ffillQ carry rest

/-- df[df.secsElapsed == 0].index (ascending). -/
def firstPlayIdxs (rows : List AsmRow) : List Nat :=
  (rows.enum.filter (fun p => p.2.secsElapsed == some 0)).map (·.1)

/-- df[df.isTimeout].index (ascending). -/
def timeoutIdxs (rows : List AsmRow) : List Nat :=
  (rows.enum.filter (fun p => p.2.isTimeout)).map (·.1)

/-- The terminal win probability: 50 for a tie (winner None), else 100
when the winner is the home team and 0 otherwise. -/
def finalWPOf : Option Bool → ℚ
  | none => 50
  | some h => if h then 100 else 0

/-- One iteration of the first-play border fix loop: set the pre-play
win probability to initialWinProb(line) and recompute that play's WPA
from the next row's (current) win probability; reading a missing label
raises KeyError (None). -/
def firstFixStep (initwp : ℚ) (st : List (Option ℚ) × List (Option ℚ))
    (i : Nat) : Option (List (Option ℚ) × List (Option ℚ)) := do
  let (wp, wpa) := st
  let wp := wp.set i (some initwp)
  let nxt ← wp.get? (i + 1)
  pure (wp, wpa.set i (osub nxt (some initwp)))

/-- One iteration of the timeout fix loop: zero the timeout's WPA and
recompute the next play's WPA as wp[to+2] - wp[to+1] when row to+2
exists, else finalWP - wp[to+1]; reading a missing label raises
KeyError (None). -/
def timeoutFixStep (finalWP : ℚ) (n : Nat)
    (st : List (Option ℚ) × List (Option ℚ)) (tidx : Nat) :
    Option (List (Option ℚ) × List (Option ℚ)) := do
  let (wp, wpa) := st
  let wpa := wpa.set tidx (some 0)
  if tidx + 2 ≤ n then do
    let a ← wp.get? (tidx + 2)
    let b ← wp.get? (tidx + 1)
    pure (wp, wpa.set (tidx + 1) (osub a b))
  else do
    let b ← wp.get? (tidx + 1)
    pure (wp, wpa.set (tidx + 1) (osub (some finalWP) b))

/-- The WPA value the timeout fix writes at row tidx + 1: the lagged win
probability two rows after the timeout minus the lagged win probability
one row after it when row tidx + 2 exists, else the terminal win
probability minus that same value. -/
def tformula (fw : ℚ) (n : Nat) (wp : List (Option ℚ)) (tidx : Nat) : Option ℚ :=
  if tidx + 2 ≤ n then
    osub (wp.getD (tidx + 2) Option.none) (wp.getD (tidx + 1) Option.none)
  else
    osub (some fw) (wp.getD (tidx + 1) Option.none)

/-- The home_wp / home_wpa computation of BoxScore.pbp in source order:
diff, shift, forward-fill, first-play fixes, last-play fix, timeout
fixes.  Returns the pair (home_wp column, home_wpa column), or None
when the Python code would raise.  The parameter initWP is the external
initialWinProb model applied to self.line(); winnerIsHome is None for a
tie. -/
def assemblePbp (initWP : Option ℚ → ℚ) (line : Option ℚ)
    (winnerIsHome : Option Bool) (rows : List AsmRow) :
    Option (List (Option ℚ) × List (Option ℚ)) := do
  let wpRaw := rows.map (·.home_wp)
  let wpa := diffCol wpRaw
  let wp := ffillQ Option.none (shiftCol wpRaw)
  let st ← (firstPlayIdxs rows).foldlM (firstFixStep (initWP line)) (wp, wpa)
  let (wp, wpa) := st
  match rows.length with
  | 0 => none
  | n + 1 =>
    let lastWP := wp.getD n Option.none
    let finalWP := finalWPOf winnerIsHome
    let wpa := wpa.set n (osub (some finalWP) lastWP)
    (timeoutIdxs rows).foldlM (timeoutFixStep finalWP n) (wp, wpa)

/-- NaN-propagating sum of a WPA column. -/
def osumQ : List (Option ℚ) → Option ℚ
  | [] => some 0
  | v :: rest =>
    match v, osumQ rest with
    | some x, some s => some (x + s)
    | _, _ => none

/-- The assembler as the specification's failure-semantics text
describes it (spec section 4.3): identical, except that when the point
spread is absent the first-play boundary correction is skipped.
Stated for comparison with assemblePbp. -/
def assemblePbpSkipSpec (initWP : Option ℚ → ℚ) (line : Option ℚ)
    (winnerIsHome : Option Bool) (rows : List AsmRow) :
    Option (List (Option ℚ) × List (Option ℚ)) := do
  let wpRaw := rows.map (·.home_wp)
  let wpa := diffCol wpRaw
  let wp := ffillQ Option.none (shiftCol wpRaw)
  let st ←
    match line with
    | none => pure (wp, wpa)
    | some _ =>
      (firstPlayIdxs rows).foldlM (firstFixStep (initWP line)) (wp, wpa)
  let (wp, wpa) := st
  match rows.length with
  | 0 => none
  | n + 1 =>
    let lastWP := wp.getD n Option.none
    let finalWP := finalWPOf winnerIsHome
    let wpa := wpa.set n (osub (some finalWP) lastWP)
    (timeoutIdxs rows).foldlM (timeoutFixStep finalWP n) (wp, wpa)

end NflStats

namespace NflStats

set_option maxRecDepth 1000000

/-- The concrete description string on which the classifier raises: the
challenge pattern matches with the call upheld, the string contains the
substring overturned, but nowhere followed by a period, so
details.index raises ValueError. -/
def c3FailingStr : String :=
  "First and ten. CoacBi00 challenged the ruling and the play was upheld. The fans wanted it overturned anyway"

/-- The run-play description of claim C4. -/
def c4Str : String := "BradTo00 left end for 7 yards (tackle by SmitJo01)"

/-- The classified C4 row: a minimal raw row (detail, quarter, clock)
updated with the classifier's extracted fields, as expand_details
merges them. -/
def c4Row : Struct :=
  match parsePlayDetails (.str c4Str) with
  | .ok (some d) =>
    Struct.update [("detail", .str c4Str), ("quarter", .float 1),
                   ("qtr_time_remain", .str "15:00")] d
  | _ => []

/-- Head of a column, ignoring a null head. -/
def headPresent (m : List PyVal) : Option PyVal :=
  match m.head? with
  | some u => if pyIsNull u then none else some u
  | none => none

/-- The last element of a rational list (0 for the empty list). -/
def lastQ : List ℚ → ℚ
  | [] => 0
  | [x] => x
  | _ :: y :: t => lastQ (y :: t)

/-- The successive differences of a rational list. -/
def pairDiffs (l : List ℚ) : List ℚ := (l.tail.zip l).map (fun p => p.1 - p.2)



/-- C3: the claim says parse_play_details never raises on any input;
the code, however, raises ValueError on this string, whose challenge
clause matches with the call upheld while the substring overturned
occurs without a following period, so details.index fails before any
category matcher runs.  This theorem evaluates the embedded classifier
at that failing input. -/
theorem classifier_raises_on_challenge_input :
    parsePlayDetails (.str c3FailingStr) = .error .valueError := by decide



/-- C4: classification followed by normalization of the description
BradTo00 left end for 7 yards (tackle by SmitJo01) yields category Run
with rusher BradTo00, canonical rush direction LE, integer rush yards
7 and first tackler SmitJo01, and the first matcher in priority order
to succeed on this description is the Run matcher, so none of the ten
earlier matchers captures it. -/
theorem run_example_classification :
    ((match cleanFeatures c4Row with
      | .ok st => [st.get "isRun", st.get "rusher", st.get "rushDir",
                   st.get "rushYds", st.get "tackler1"]
      | .error _ => []) =
     [some (.bool true), some (.str "BradTo00"), some (.str "LE"),
      some (.int 7), some (.str "SmitJo01")]) ∧
    (firstCat c4Str.data).map (fun p => p.1) = some PlayCat.run := by
  constructor
  · decide
  · decide

set_option maxHeartbeats 4000000 in
/-- C7: for a play with a clock string present, normalization computes
secsElapsed as quarter times 900 minus (minutes times 60 plus seconds):
the first conjunct is the general formula for any integer quarter and
any clock string splitting into two int()-parsable fields; the second
instantiates the full pipeline at quarter 2 with clock 10:30, giving
2*900 - (10*60 + 30) = 1170; the third shows the OT quarter first
normalizing to 5 before the same formula applies. -/
theorem secs_elapsed_formula
    (q : Int) (clock : String) (ms ss : List Char) (mins secs : Int)
    (hsplit : splitOnChar ':' clock.data = [ms, ss])
    (hm : pyIntOfString (String.mk ms) = some mins)
    (hs : pyIntOfString (String.mk ss) = some secs) :
    secsElapsedOf (.int q) clock = .ok (.int (q * 900 - mins * 60 - secs)) ∧
    ((match cleanFeatures [("detail", .str "d"), ("quarter", .float 2),
                           ("qtr_time_remain", .str "10:30")] with
      | .ok st => st.get "secsElapsed"
      | .error _ => none) = some (.int (2 * 900 - (10 * 60 + 30)))) ∧
    (match cleanFeatures [("detail", .str "d"), ("quarter", .str "OT"),
                          ("qtr_time_remain", .str "10:30")] with
     | .ok st => (st.get "quarter", st.get "secsElapsed")
     | .error _ => (none, none)) = (some (.int 5), some (.int 3870)) := by
  refine ⟨?_, by decide, by decide⟩
  unfold secsElapsedOf
  rw [hsplit]
  simp [pyInt, hm, hs]

theorem secs_elapsed_formula_witness :
    splitOnChar ':' "10:30".data = ["10".data, "30".data] ∧
    secsElapsedOf (.int 2) "10:30" = .ok (.int (2 * 900 - 10 * 60 - 30)) ∧
    (2 * 900 - 10 * 60 - 30 : Int) = 1170 :=
  ⟨by decide,
   (secs_elapsed_formula 2 "10:30" "10".data "30".data 10 30
     (by decide) (by decide) (by decide)).1,
   by decide⟩

/-- C8 counterexample: the claim says a non-string or empty location
yields the 50-yard line with missing side, but the code returns a pair
of missing values for the empty string (an empty string is falsy, so it
reaches the else branch that yields (nan, nan)). -/
theorem loc_features_cex :
    locToFeatures (.str "") = .ok [.nan, .nan] ∧
    ¬ ([PyVal.nan, PyVal.nan] = [PyVal.nan, PyVal.int 50]) := by decide

/-- C8 as amended: a combined location string splits into the
lowercased side and the int()-parsed yard line (with any further
whitespace-separated tokens passed through); a bare number yields a
missing side with that yard line; a truthy float - including the
missing marker np.nan - yields the 50-yard line with missing side;
an empty string, None or a zero float yields both values missing. -/
theorem loc_features_corrected :
    (∀ (s : String) (p0 p1 : List Char) (rest : List (List Char)) (n : Int),
       pyTruthy (.str s) = true →
       (stripBoth s.data).contains ' ' = true →
       splitWS (stripBoth s.data) = p0 :: p1 :: rest →
       pyIntOfString (String.mk p1) = some n →
       locToFeatures (.str s) =
         .ok (.str (String.mk (p0.map Char.toLower)) :: .int n ::
              rest.map (fun w => PyVal.str (String.mk w)))) ∧
    (∀ (s : String) (n : Int),
       pyTruthy (.str s) = true →
       (stripBoth s.data).contains ' ' = false →
       pyIntOfString (String.mk (stripBoth s.data)) = some n →
       locToFeatures (.str s) = .ok [.nan, .int n]) ∧
    (∀ q : ℚ, q ≠ 0 → locToFeatures (.float q) = .ok [.nan, .int 50]) ∧
    locToFeatures .nan = .ok [.nan, .int 50] ∧
    locToFeatures (.str "") = .ok [.nan, .nan] ∧
    locToFeatures .pynone = .ok [.nan, .nan] ∧
    locToFeatures (.float 0) = .ok [.nan, .nan] := by
  refine ⟨?_, ?_, ?_, by decide, by decide, by decide, by decide⟩
  · intro s p0 p1 rest n ht hsp hsplit hn
    simp only [locToFeatures, ht, if_true, hsp, hsplit, pyInt]
    simp [hn]
  · intro s n ht hsp hn
    simp only [locToFeatures, ht, if_true, hsp, pyInt]
    simp [hn]
  · intro q hq
    simp [locToFeatures, pyTruthy, hq]

theorem loc_features_corrected_witness :
    locToFeatures (.str "DET 24") = .ok [.str "det", .int 24] ∧
    locToFeatures (.str " 35 ") = .ok [.nan, .int 35] := by
  constructor
  · exact (loc_features_corrected.1 "DET 24" "DET".data "24".data [] 24
      (by decide) (by decide) (by decide) (by decide)).trans (by decide)
  · exact (loc_features_corrected.2.1 " 35 " 35
      (by decide) (by decide) (by decide))

/-- C10: for a play normalized with isXP true, fieldSide and ydLine
are forced to missing and the location is never consulted (the result
is the same for any two location values, even one that would raise if
split); the location-splitting rule applies only to non-extra-point
plays, as the contrasting non-XP conjuncts show, and the full pipeline
confirms this end to end on an extra-point row whose location would
crash the splitter. -/
theorem xp_location_ignored :
    (∀ loc loc' : PyVal, fieldSideYdLine (.bool true) loc = .ok (.nan, .nan) ∧
        fieldSideYdLine (.bool true) loc = fieldSideYdLine (.bool true) loc') ∧
    fieldSideYdLine (.bool false) (.str "DET 24") = .ok (.str "det", .int 24) ∧
    fieldSideYdLine (.bool false) (.int 30) = .error .unboundLocalError ∧
    ((match cleanFeatures [("detail", .str "d"), ("quarter", .int 4),
                           ("isXP", .bool true), ("location", .int 30)] with
      | .ok st => (st.get "fieldSide", st.get "ydLine")
      | .error _ => (none, none)) = (some PyVal.nan, some PyVal.nan)) := by
  exact ⟨fun loc loc' => ⟨rfl, rfl⟩, by decide, by decide, by decide⟩

/-- C6 counterexample: the claim (seed the first play to 15:00 only if
missing, then forward-fill) disagrees with the code (set row 0 to 15:00
unconditionally, then backward-fill): on a two-play game whose first
clock reads 7:00 and whose second is missing in the fourth quarter, the
code yields [15:00, 0:00] while the claimed procedure yields
[7:00, 7:00]. -/
theorem clock_fill_cex :
    fillClockCol [(.str "7:00", .float 4), (.nan, .float 4)] =
      [.str "15:00", .str "0:00"] ∧
    fillClockColSpec [(.str "7:00", .float 4), (.nan, .float 4)] =
      [.str "7:00", .str "7:00"] ∧
    ¬ ([PyVal.str "15:00", PyVal.str "0:00"] =
       [PyVal.str "7:00", PyVal.str "7:00"]) := by decide

theorem pyBfill_length (l : List PyVal) : (pyBfill l).length = l.length := by
  induction l with
  | nil => rfl
  | cons v rest ih => simp [pyBfill, ih]


theorem pyBfill_headPresent (l : List PyVal) :
    headPresent (pyBfill l) = nextPresent l := by
  induction l with
  | nil => rfl
  | cons v rest ih =>
    cases hv : pyIsNull v with
    | false => simp [pyBfill, nextPresent, headPresent, hv]
    | true =>
      cases hh : (pyBfill rest).head? with
      | none =>
        simp only [headPresent, hh] at ih
        simp [pyBfill, nextPresent, headPresent, hv, hh, ← ih]
      | some u =>
        cases hu : pyIsNull u with
        | false =>
          simp only [headPresent, hh, hu] at ih
          simp [pyBfill, nextPresent, headPresent, hv, hh, hu, ← ih]
        | true =>
          simp only [headPresent, hh, hu] at ih
          simp [pyBfill, nextPresent, headPresent, hv, hh, hu, ← ih]

theorem pyBfill_get (l : List PyVal) (i : Nat) :
    (pyBfill l).get? i = (l.get? i).map (fun v =>
      if pyIsNull v then ((nextPresent (l.drop (i + 1))).getD v) else v) := by
  induction l generalizing i with
  | nil => simp [pyBfill]
  | cons v rest ih =>
    cases i with
    | zero =>
      have h := pyBfill_headPresent rest
      cases hv : pyIsNull v with
      | false => simp [pyBfill, hv]
      | true =>
        cases hh : (pyBfill rest).head? with
        | none =>
          simp only [headPresent, hh] at h
          simp [pyBfill, hv, hh, ← h]
        | some u =>
          cases hu : pyIsNull u with
          | false =>
            simp only [headPresent, hh, hu] at h
            simp [pyBfill, hv, hh, hu, ← h]
          | true =>
            simp only [headPresent, hh, hu] at h
            simp [pyBfill, hv, hh, hu, ← h]
    | succ j =>
      simpa [pyBfill] using ih j

theorem nextPresent_notnull (l : List PyVal) (w : PyVal)
    (h : nextPresent l = some w) : pyNotNull w = true := by
  induction l with
  | nil => simp [nextPresent] at h
  | cons v rest ih =>
    by_cases hv : pyIsNull v = true
    · rw [nextPresent, if_pos hv] at h
      exact ih h
    · rw [nextPresent, if_neg hv] at h
      cases h
      simpa [pyIsNull] using hv

theorem zip_get_both {A B : Type} (l1 : List A) (l2 : List B) (i : Nat)
    (a : A) (b : B) (h1 : l1.get? i = some a) (h2 : l2.get? i = some b) :
    (l1.zip l2).get? i = some (a, b) := by
  induction l1 generalizing l2 i with
  | nil => simp at h1
  | cons x xs ih =>
    cases l2 with
    | nil => simp at h2
    | cons y ys =>
      cases i with
      | zero =>
        simp only [List.get?] at h1 h2
        cases h1; cases h2; rfl
      | succ j =>
        simp only [List.get?] at h1 h2 ⊢
        exact ih ys j h1 h2

/-- C6 as amended: qtr_time_remain is set to 15:00 on the first play
unconditionally (even when present), remaining gaps are backward-filled
from the next present value, and any value still missing after that is
set per-row to 0:00 when that row's quarter equals 4 and to 15:00
otherwise; afterwards every play has a non-missing clock value. -/
theorem clock_fill_corrected (rows : List (PyVal × PyVal)) (i : Nat)
    (r : PyVal × PyVal) (hr : rows.get? i = some r) :
    (fillClockCol rows).length = rows.length ∧
    (∃ c v,
      ((rows.map (fun p => p.1)).set 0 (PyVal.str "15:00")).get? i = some c ∧
      (fillClockCol rows).get? i = some v ∧
      v = (if pyIsNull c then
             match nextPresent
                 (((rows.map (fun p => p.1)).set 0 (PyVal.str "15:00")).drop (i + 1)) with
             | some w => w
             | none => if pyEq r.2 (.int 4) then PyVal.str "0:00"
                       else PyVal.str "15:00"
           else c) ∧
      pyNotNull v = true) := by
  have hi : i < rows.length := by
    by_contra hlt
    rw [List.get?_eq_none.mpr (by omega)] at hr
    exact Option.noConfusion hr
  set col0 := (rows.map (fun p => p.1)).set 0 (PyVal.str "15:00") with hcol0
  have hlen0 : col0.length = rows.length := by
    simp [hcol0]
  have hlenb : (pyBfill col0).length = rows.length := by
    rw [pyBfill_length, hlen0]
  constructor
  · simp only [fillClockCol]
    rw [List.length_map, List.length_zip, hlenb, List.length_map]
    omega
  · obtain ⟨c, hc⟩ : ∃ c, col0.get? i = some c := by
      cases hg : col0.get? i with
      | none => rw [List.get?_eq_none] at hg; omega
      | some c => exact ⟨c, rfl⟩
    have hq : (rows.map (fun p => p.2)).get? i = some r.2 := by
      rw [List.get?_map, hr]; rfl
    have hb : (pyBfill col0).get? i = some
        (if pyIsNull c then (nextPresent (col0.drop (i + 1))).getD c else c) := by
      rw [pyBfill_get, hc]; rfl
    have hz : ((pyBfill col0).zip (rows.map (fun p => p.2))).get? i =
        some ((if pyIsNull c then (nextPresent (col0.drop (i + 1))).getD c else c), r.2) :=
      zip_get_both _ _ _ _ _ hb hq
    have hout : (fillClockCol rows).get? i = some
        (if pyIsNull (if pyIsNull c then (nextPresent (col0.drop (i + 1))).getD c else c) then
           (if pyEq r.2 (.int 4) then PyVal.str "0:00" else PyVal.str "15:00")
         else (if pyIsNull c then (nextPresent (col0.drop (i + 1))).getD c else c)) := by
      simp only [fillClockCol]
      rw [List.get?_map, hz]
      rfl
    refine ⟨c, _, hc, hout, ?_, ?_⟩
    · cases hnc : pyIsNull c with
      | true =>
        cases hnp : nextPresent (col0.drop (i + 1)) with
        | some w =>
          have hw := nextPresent_notnull _ _ hnp
          simp [hnc, hnp, pyIsNull, hw]
        | none => simp [hnc, hnp]
      | false => simp [hnc]
    · cases hnc : pyIsNull c with
      | true =>
        cases hnp : nextPresent (col0.drop (i + 1)) with
        | some w =>
          have hw := nextPresent_notnull _ _ hnp
          simp [hnc, hnp, pyIsNull, hw]
        | none =>
          cases h4 : pyEq r.2 (.int 4) <;> simp [hnc, hnp, h4, pyNotNull]
      | false =>
        have hcc : pyNotNull c = true := by simpa [pyIsNull] using hnc
        simp [hnc, hcc]

theorem clock_fill_corrected_witness :
    (fillClockCol [(.str "7:00", .float 4), (.nan, .float 1)]).length = 2 ∧
    (∃ c v,
      (([(PyVal.str "7:00", PyVal.float 4), (PyVal.nan, PyVal.float 1)].map
          (fun p => p.1)).set 0 (PyVal.str "15:00")).get? 1 = some c ∧
      (fillClockCol [(.str "7:00", .float 4), (.nan, .float 1)]).get? 1 = some v ∧
      v = (if pyIsNull c then
             match nextPresent
                 ((([(PyVal.str "7:00", PyVal.float 4), (PyVal.nan, PyVal.float 1)].map
                     (fun p => p.1)).set 0 (PyVal.str "15:00")).drop 2) with
             | some w => w
             | none => if pyEq (PyVal.float 1) (.int 4) then PyVal.str "0:00"
                       else PyVal.str "15:00"
           else c) ∧
      pyNotNull v = true) :=
  clock_fill_corrected [(.str "7:00", .float 4), (.nan, .float 1)] 1
    (.nan, .float 1) (by decide)

theorem parse_first_match_wins (inner : List Char → Except PErr (Option Struct))
    (st : Struct) (cs : List Char) :
    tryCatsWith inner st cs =
      (match firstCat cs with
       | none => .ok Option.none
       | some (c, m) => catResult inner st c m) := by
  unfold tryCatsWith firstCat catPriority
  cases h1 : REsearch kickoffRE cs with
  | some m => simp [catMatch, catRegex, catResult, catFlag, h1]
  | none =>
  cases h2 : REsearch timeoutRE cs with
  | some m => simp [catMatch, catRegex, catResult, catFlag, h1, h2]
  | none =>
  cases h3 : REsearch fgRE cs with
  | some m => simp [catMatch, catRegex, catResult, catFlag, h1, h2, h3]
  | none =>
  cases h4 : REsearch puntRE cs with
  | some m => simp [catMatch, catRegex, catResult, catFlag, h1, h2, h3, h4]
  | none =>
  cases h5 : REsearch kneelRE cs with
  | some m => simp [catMatch, catRegex, catResult, catFlag, h1, h2, h3, h4, h5]
  | none =>
  cases h6 : REsearch spikeRE cs with
  | some m => simp [catMatch, catRegex, catResult, catFlag, h1, h2, h3, h4, h5, h6]
  | none =>
  cases h7 : REsearch extraPointRE cs with
  | some m =>
    simp [catMatch, catRegex, catResult, catFlag, h1, h2, h3, h4, h5, h6, h7]
  | none =>
  cases h8 : REsearch twoPointRE cs with
  | some m =>
    simp [catMatch, catRegex, catResult, catFlag, h1, h2, h3, h4, h5, h6, h7, h8]
  | none =>
  cases h9 : REsearch passRE cs with
  | some m =>
    simp [catMatch, catRegex, catResult, catFlag, h1, h2, h3, h4, h5, h6, h7, h8,
          h9]
  | none =>
  cases h10 : REmatchHere psPenaltyRE cs with
  | some m =>
    simp [catMatch, catRegex, catResult, catFlag, h1, h2, h3, h4, h5, h6, h7, h8,
          h9, h10]
  | none =>
  cases h11 : REsearch rushRE cs with
  | some m =>
    simp [catMatch, catRegex, catResult, catFlag, h1, h2, h3, h4, h5, h6, h7, h8,
          h9, h10, h11]
  | none =>
    simp [catMatch, catRegex, catResult, catFlag, h1, h2, h3, h4, h5, h6, h7, h8,
          h9, h10, h11]

/-- C1: after the challenge preamble, parse_play_details tries the
category matchers in exactly the order Kickoff, Timeout, FieldGoal,
Punt, Kneel, Spike, ExtraPoint, TwoPointConversion, Pass,
PresnapPenalty, Run (the list catPriority), and returns the structured
capture of the first matcher that succeeds (catResult depends only on
that matcher's captures), so when an earlier matcher matches no later
matcher's result is ever returned; no match at all returns None. -/
theorem classifier_priority_order (fuel : Nat) (cs : List Char) :
    parseCoreAux (fuel + 1) cs =
      (match challengePre cs with
       | .error e => .error e
       | .ok (st, cs2) =>
         (match firstCat cs2 with
          | none => .ok Option.none
          | some (c, m) => catResult (fun t => parseCoreAux fuel t) st c m)) := by
  cases hc : challengePre cs with
  | error e => simp [parseCoreAux, hc]
  | ok p =>
    obtain ⟨st, cs2⟩ := p
    simp only [parseCoreAux, hc]
    exact parse_first_match_wins (fun t => parseCoreAux fuel t) st cs2

/-! Helper lemmas about list indexing used by the assembler proofs. -/

theorem my_get_set_ne {A : Type} (l : List A) (i j : Nat) (v : A) (h : i ≠ j) :
    (l.set i v).get? j = l.get? j := by
  induction l generalizing i j with
  | nil => simp
  | cons x xs ih =>
    cases i with
    | zero => cases j with
      | zero => omega
      | succ j2 => simp [List.set]
    | succ i2 => cases j with
      | zero => simp [List.set]
      | succ j2 => simpa [List.set] using ih i2 j2 (by omega)

theorem my_get_set_eq {A : Type} (l : List A) (j : Nat) (v : A)
    (h : j < l.length) : (l.set j v).get? j = some v := by
  induction l generalizing j with
  | nil => simp at h
  | cons x xs ih =>
    cases j with
    | zero => rfl
    | succ j2 => simpa [List.set] using ih j2 (by simpa using Nat.lt_of_succ_lt_succ h)

theorem my_set_self {A : Type} (l : List A) (i : Nat) (v : A)
    (h : l.get? i = some v) : l.set i v = l := by
  induction l generalizing i with
  | nil => simp at h
  | cons x xs ih =>
    cases i with
    | zero => simp only [List.get?] at h; cases h; rfl
    | succ i2 =>
      simp only [List.get?] at h
      simp [List.set, ih i2 h]

theorem my_tail_get {A : Type} (l : List A) (j : Nat) :
    l.tail.get? j = l.get? (j + 1) := by
  cases l <;> rfl

theorem my_dropLast_get {A : Type} (l : List A) (j : Nat)
    (h : j + 1 < l.length) : l.dropLast.get? j = l.get? j := by
  induction l generalizing j with
  | nil => simp at h
  | cons x xs ih =>
    cases xs with
    | nil => simp at h
    | cons y ys =>
      cases j with
      | zero => rfl
      | succ j2 =>
        simp only [List.length] at h
        simpa [List.dropLast] using ih j2 (by simpa using Nat.lt_of_succ_lt_succ h)

theorem my_map_dropLast {A B : Type} (f : A → B) (l : List A) :
    (l.map f).dropLast = l.dropLast.map f := by
  induction l with
  | nil => rfl
  | cons x xs ih =>
    cases xs with
    | nil => rfl
    | cons y ys =>
      simp only [List.dropLast, List.map_cons] at ih ⊢
      rw [ih]

theorem my_set_last {A : Type} (l : List A) (v : A) (h : l ≠ []) :
    l.set (l.length - 1) v = l.dropLast ++ [v] := by
  induction l with
  | nil => exact absurd rfl h
  | cons x xs ih =>
    cases xs with
    | nil => rfl
    | cons y ys =>
      have : (x :: y :: ys).length - 1 = ((y :: ys).length - 1) + 1 := by
        simp
      rw [this]
      simp only [List.set]
      rw [ih (by simp)]
      rfl


theorem lastQ_get (l : List ℚ) (h : l ≠ []) :
    l.get? (l.length - 1) = some (lastQ l) := by
  induction l with
  | nil => exact absurd rfl h
  | cons x xs ih =>
    cases xs with
    | nil => rfl
    | cons y ys =>
      have hl : (x :: y :: ys).length - 1 = ((y :: ys).length - 1) + 1 := by simp
      rw [hl]
      simpa [lastQ] using ih (by simp)


theorem pairDiffs_cons (x y : ℚ) (t : List ℚ) :
    pairDiffs (x :: y :: t) = (y - x) :: pairDiffs (y :: t) := rfl

theorem pairDiffs_length (l : List ℚ) : (pairDiffs l).length = l.length - 1 := by
  cases l <;> simp [pairDiffs]

theorem pairDiffs_sum (x : ℚ) (xs : List ℚ) :
    (pairDiffs (x :: xs)).sum = lastQ (x :: xs) - x := by
  induction xs generalizing x with
  | nil => simp [pairDiffs, lastQ]
  | cons y t ih =>
    rw [pairDiffs_cons, List.sum_cons, ih y]
    simp only [lastQ]
    ring

theorem pairDiffs_dropLast (l : List ℚ) :
    (pairDiffs l).dropLast = pairDiffs l.dropLast := by
  induction l with
  | nil => rfl
  | cons x xs ih =>
    cases xs with
    | nil => rfl
    | cons y ys =>
      cases ys with
      | nil => rfl
      | cons z zs =>
        rw [pairDiffs_cons]
        have h1 : pairDiffs (y :: z :: zs) ≠ [] := by
          rw [pairDiffs_cons]; simp
        rw [List.dropLast_cons_of_ne_nil h1, ih]
        have h2 : (x :: y :: z :: zs).dropLast = x :: (y :: z :: zs).dropLast := rfl
        rw [h2]
        have h3 : (y :: z :: zs).dropLast = y :: (z :: zs).dropLast := rfl
        rw [h3, pairDiffs_cons]

theorem pairDiffs_get (l : List ℚ) (j : Nat) (a b : ℚ)
    (ha : l.get? j = some a) (hb : l.get? (j + 1) = some b) :
    (pairDiffs l).get? j = some (b - a) := by
  have ht : l.tail.get? j = some b := by rw [my_tail_get]; exact hb
  have hz := zip_get_both l.tail l j b a ht ha
  rw [pairDiffs, List.get?_map, hz]
  rfl

theorem osumQ_cons (v : Option ℚ) (rest : List (Option ℚ)) :
    osumQ (v :: rest) =
      (match v, osumQ rest with
       | some x, some s => some (x + s)
       | _, _ => none) := rfl

theorem osumQ_map_some (l : List ℚ) : osumQ (l.map some) = some l.sum := by
  induction l with
  | nil => rfl
  | cons x xs ih => rw [List.map_cons, osumQ_cons, ih]; rfl

theorem osumQ_append_single (l : List ℚ) (v : ℚ) :
    osumQ (l.map some ++ [some v]) = some (l.sum + v) := by
  induction l with
  | nil =>
    rw [List.map_nil, List.nil_append, osumQ_cons,
        show osumQ [] = some 0 from rfl]
    simp
  | cons x xs ih =>
    rw [List.map_cons, List.cons_append, osumQ_cons, ih, List.sum_cons]
    simp only []
    congr 1
    ring

theorem diffCol_length (l : List (Option ℚ)) : (diffCol l).length = l.length := by
  cases l <;> simp [diffCol]

theorem shiftCol_length (l : List (Option ℚ)) : (shiftCol l).length = l.length := by
  cases l with
  | nil => rfl
  | cons x xs => simp [shiftCol]

theorem ffillQ_length (c : Option ℚ) (l : List (Option ℚ)) :
    (ffillQ c l).length = l.length := by
  induction l generalizing c with
  | nil => rfl
  | cons x xs ih => cases x <;> simp [ffillQ, ih]

theorem ffillQ_map_some (c : Option ℚ) (l : List ℚ) :
    ffillQ c (l.map some) = l.map some := by
  induction l generalizing c with
  | nil => rfl
  | cons x xs ih => simp [ffillQ, ih]

theorem zip_map_osub (l1 l2 : List ℚ) :
    ((l1.map some).zip (l2.map some)).map (fun p => osub p.1 p.2) =
      (l1.zip l2).map (fun p => some (p.1 - p.2)) := by
  induction l1 generalizing l2 with
  | nil => simp
  | cons x xs ih =>
    cases l2 with
    | nil => simp
    | cons y ys => simpa [osub] using ih ys

theorem diffCol_map_some (x : ℚ) (xs : List ℚ) :
    diffCol ((x :: xs).map some) = Option.none :: (pairDiffs (x :: xs)).map some := by
  simp only [diffCol, pairDiffs, List.map_cons]
  congr 1
  have h := zip_map_osub xs (x :: xs)
  simp only [List.map_cons] at h
  rw [show ((x :: xs).tail) = xs from rfl, h, List.map_map]
  rfl

theorem shift_ffill_map_some (x : ℚ) (xs : List ℚ) :
    ffillQ Option.none (shiftCol ((x :: xs).map some)) =
      Option.none :: ((x :: xs).dropLast.map some) := by
  rw [show shiftCol ((x :: xs).map some) =
        Option.none :: ((x :: xs).map some).dropLast from rfl]
  rw [my_map_dropLast]
  rw [show ffillQ Option.none (Option.none :: (x :: xs).dropLast.map some) =
        Option.none :: ffillQ Option.none ((x :: xs).dropLast.map some) from rfl]
  rw [ffillQ_map_some]

theorem get_isSome {A : Type} (l : List A) (k : Nat) (hk : k < l.length) :
    ∃ a, l.get? k = some a := by
  cases hg : l.get? k with
  | none => rw [List.get?_eq_none] at hg; omega
  | some a => exact ⟨a, rfl⟩

theorem foldlM_id {S : Type} (f : S → Nat → Option S) (st : S) (ts : List Nat)
    (h : ∀ a ∈ ts, f st a = some st) : ts.foldlM f st = some st := by
  induction ts with
  | nil => rfl
  | cons a l ih =>
    simp only [List.foldlM, h a (List.mem_cons_self a l)]
    exact ih (fun b hb => h b (List.mem_cons_of_mem a hb))

theorem closedW_get (iw : ℚ) (q : List ℚ) (j : Nat) (a : ℚ)
    (ha : q.get? j = some a) (hj : j + 1 < q.length) :
    (some iw :: (q.dropLast.map some)).get? (j + 1) = some (some a) := by
  have h : (q.dropLast.map some).get? j = some (some a) := by
    rw [List.get?_map, my_dropLast_get q j hj, ha]; rfl
  simpa [List.get?] using h

theorem closedW_get_last (iw x y : ℚ) (t : List ℚ) :
    (some iw :: ((x :: y :: t).dropLast.map some)).get? (t.length + 1) =
      some (some (lastQ (x :: y :: t).dropLast)) := by
  have hne : (x :: y :: t).dropLast ≠ [] := by
    rw [show (x :: y :: t).dropLast = x :: (y :: t).dropLast from rfl]
    exact List.cons_ne_nil _ _
  have hlen : (x :: y :: t).dropLast.length = t.length + 1 := by simp
  rw [show ((some iw :: ((x :: y :: t).dropLast.map some)).get? (t.length + 1)) =
        (((x :: y :: t).dropLast.map some).get? t.length) from rfl]
  rw [List.get?_map]
  rw [show t.length = (x :: y :: t).dropLast.length - 1 from by rw [hlen]; rfl]
  rw [lastQ_get _ hne]
  rfl

theorem closedA2_get_mid (iw fw x y : ℚ) (t : List ℚ) (k : Nat) (a b : ℚ)
    (hk1 : 1 ≤ k) (hk2 : k ≤ t.length)
    (ha : (x :: y :: t).get? (k - 1) = some a)
    (hb : (x :: y :: t).get? k = some b) :
    ((some (x - iw) :: (pairDiffs (x :: y :: t)).map some).set (t.length + 1)
        (some (fw - lastQ (x :: y :: t).dropLast))).get? k =
      some (some (b - a)) := by
  obtain ⟨k2, rfl⟩ : ∃ k2, k = k2 + 1 := ⟨k - 1, by omega⟩
  rw [show ((some (x - iw) :: (pairDiffs (x :: y :: t)).map some).set (t.length + 1)
        (some (fw - lastQ (x :: y :: t).dropLast))) =
      some (x - iw) :: ((pairDiffs (x :: y :: t)).map some).set t.length
        (some (fw - lastQ (x :: y :: t).dropLast)) from rfl]
  rw [show (some (x - iw) :: ((pairDiffs (x :: y :: t)).map some).set t.length
        (some (fw - lastQ (x :: y :: t).dropLast))).get? (k2 + 1) =
      (((pairDiffs (x :: y :: t)).map some).set t.length
        (some (fw - lastQ (x :: y :: t).dropLast))).get? k2 from rfl]
  rw [my_get_set_ne _ _ _ _ (by omega : t.length ≠ k2)]
  rw [List.get?_map]
  rw [pairDiffs_get (x :: y :: t) k2 a b (by simpa using ha) hb]
  rfl

theorem closedA2_get_last (iw fw x y : ℚ) (t : List ℚ) :
    ((some (x - iw) :: (pairDiffs (x :: y :: t)).map some).set (t.length + 1)
        (some (fw - lastQ (x :: y :: t).dropLast))).get? (t.length + 1) =
      some (some (fw - lastQ (x :: y :: t).dropLast)) := by
  rw [show ((some (x - iw) :: (pairDiffs (x :: y :: t)).map some).set (t.length + 1)
        (some (fw - lastQ (x :: y :: t).dropLast))) =
      some (x - iw) :: ((pairDiffs (x :: y :: t)).map some).set t.length
        (some (fw - lastQ (x :: y :: t).dropLast)) from rfl]
  rw [show (some (x - iw) :: ((pairDiffs (x :: y :: t)).map some).set t.length
        (some (fw - lastQ (x :: y :: t).dropLast))).get? (t.length + 1) =
      (((pairDiffs (x :: y :: t)).map some).set t.length
        (some (fw - lastQ (x :: y :: t).dropLast))).get? t.length from rfl]
  exact my_get_set_eq _ _ _ (by simp [pairDiffs_length])

theorem assemble_closed_form
    (initWP : Option ℚ → ℚ) (line : Option ℚ) (winner : Option Bool)
    (rows : List AsmRow) (x y : ℚ) (t : List ℚ)
    (h1 : rows.map (fun r => r.home_wp) = (x :: y :: t).map some)
    (h3 : firstPlayIdxs rows = [0])
    (h4 : ∀ ti ∈ timeoutIdxs rows, 1 ≤ ti ∧ ti + 1 < rows.length ∧
          (x :: y :: t).get? ti = (x :: y :: t).get? (ti - 1)) :
    assemblePbp initWP line winner rows =
      some (some (initWP line) :: ((x :: y :: t).dropLast.map some),
            (some (x - initWP line) :: (pairDiffs (x :: y :: t)).map some).set
              (t.length + 1)
              (some (finalWPOf winner - lastQ (x :: y :: t).dropLast))) := by
  have hlen : rows.length = t.length + 2 := by
    have h := congrArg List.length h1
    simpa using h
  have hff : firstFixStep (initWP line)
      (Option.none :: ((x :: y :: t).dropLast.map some),
       Option.none :: (pairDiffs (x :: y :: t)).map some) 0 =
      some (some (initWP line) :: ((x :: y :: t).dropLast.map some),
            some (x - initWP line) :: (pairDiffs (x :: y :: t)).map some) := rfl
  have hstep : ∀ ti ∈ timeoutIdxs rows,
      timeoutFixStep (finalWPOf winner) (t.length + 1)
        (some (initWP line) :: ((x :: y :: t).dropLast.map some),
         (some (x - initWP line) :: (pairDiffs (x :: y :: t)).map some).set
           (t.length + 1)
           (some (finalWPOf winner - lastQ (x :: y :: t).dropLast))) ti =
      some (some (initWP line) :: ((x :: y :: t).dropLast.map some),
            (some (x - initWP line) :: (pairDiffs (x :: y :: t)).map some).set
              (t.length + 1)
              (some (finalWPOf winner - lastQ (x :: y :: t).dropLast))) := by
    intro ti hti
    obtain ⟨ht1, ht2, ht3⟩ := h4 ti hti
    have hti2 : ti ≤ t.length := by omega
    obtain ⟨a, ha⟩ := get_isSome (x :: y :: t) (ti - 1) (by simp; omega)
    have hb : (x :: y :: t).get? ti = some a := by rw [ht3]; exact ha
    have hA2ti := closedA2_get_mid (initWP line) (finalWPOf winner) x y t ti a a
      ht1 hti2 ha hb
    rw [sub_self] at hA2ti
    simp only [timeoutFixStep]
    rw [my_set_self _ _ _ hA2ti]
    by_cases hc : ti + 2 ≤ t.length + 1
    · rw [if_pos hc]
      obtain ⟨b1, hb1⟩ := get_isSome (x :: y :: t) ti (by simp; omega)
      obtain ⟨b2, hb2⟩ := get_isSome (x :: y :: t) (ti + 1) (by simp; omega)
      rw [show ti + 2 = (ti + 1) + 1 from rfl]
      rw [closedW_get (initWP line) (x :: y :: t) (ti + 1) b2 hb2 (by simp; omega)]
      rw [closedW_get (initWP line) (x :: y :: t) ti b1 hb1 (by simp; omega)]
      have hmid2 := closedA2_get_mid (initWP line) (finalWPOf winner) x y t
        (ti + 1) b1 b2 (by omega) (by omega) (by simpa using hb1) hb2
      simp only [Option.bind_eq_bind, Option.some_bind]
      rw [show osub (some b2) (some b1) = some (b2 - b1) from rfl]
      rw [my_set_self _ _ _ hmid2]
      rfl
    · rw [if_neg hc]
      have hteq : ti = t.length := by omega
      subst hteq
      rw [closedW_get_last (initWP line) x y t]
      simp only [Option.bind_eq_bind, Option.some_bind]
      rw [show osub (some (finalWPOf winner))
            (some (lastQ (x :: y :: t).dropLast)) =
          some (finalWPOf winner - lastQ (x :: y :: t).dropLast) from rfl]
      rw [my_set_self _ _ _ (closedA2_get_last (initWP line) (finalWPOf winner) x y t)]
      rfl
  simp only [assemblePbp]
  rw [h1, diffCol_map_some x (y :: t), shift_ffill_map_some x (y :: t), h3]
  simp only [List.foldlM]
  rw [hff]
  simp only [Option.bind_eq_bind, Option.some_bind, Option.pure_def]
  rw [show rows.length = Nat.succ (t.length + 1) from by omega]
  simp only []
  have hgd : (some (initWP line) :: ((x :: y :: t).dropLast.map some)).getD
      (t.length + 1) Option.none = some (lastQ (x :: y :: t).dropLast) := by
    have h := closedW_get_last (initWP line) x y t
    simp only [List.getD, h]
    rfl
  rw [hgd]
  rw [show osub (some (finalWPOf winner)) (some (lastQ (x :: y :: t).dropLast)) =
      some (finalWPOf winner - lastQ (x :: y :: t).dropLast) from rfl]
  exact foldlM_id _ _ _ hstep

/-- C2 as amended: for a completed game's assembled series in which
every play has a recorded win probability, the unique play with zero
elapsed seconds is the first, and every timeout play is interior with
the recorded win probability unchanged across it, the initial win
probability plus the sum of the per-play WPA equals the terminal win
probability exactly, after the first-play, last-play, and timeout
boundary corrections. -/
theorem wpa_telescoping_corrected
    (initWP : Option ℚ → ℚ) (line : Option ℚ) (winner : Option Bool)
    (rows : List AsmRow) (x y : ℚ) (t : List ℚ)
    (h1 : rows.map (fun r => r.home_wp) = (x :: y :: t).map some)
    (h3 : firstPlayIdxs rows = [0])
    (h4 : ∀ ti ∈ timeoutIdxs rows, 1 ≤ ti ∧ ti + 1 < rows.length ∧
          (x :: y :: t).get? ti = (x :: y :: t).get? (ti - 1)) :
    ∃ res, assemblePbp initWP line winner rows = some res ∧
      osumQ res.2 = some (finalWPOf winner - initWP line) := by
  refine ⟨_, assemble_closed_form initWP line winner rows x y t h1 h3 h4, ?_⟩
  rw [show ((some (x - initWP line) :: (pairDiffs (x :: y :: t)).map some).set
        (t.length + 1) (some (finalWPOf winner - lastQ (x :: y :: t).dropLast))) =
      some (x - initWP line) :: ((pairDiffs (x :: y :: t)).map some).set t.length
        (some (finalWPOf winner - lastQ (x :: y :: t).dropLast)) from rfl]
  have hPlen : ((pairDiffs (x :: y :: t)).map some).length = t.length + 1 := by
    simp [pairDiffs_length]
  have hPn : ((pairDiffs (x :: y :: t)).map some) ≠ [] := by
    intro hcon
    rw [hcon] at hPlen
    simp at hPlen
  rw [show t.length = ((pairDiffs (x :: y :: t)).map some).length - 1 from
      by rw [hPlen]; rfl]
  rw [my_set_last _ _ hPn]
  rw [my_map_dropLast, pairDiffs_dropLast]
  rw [show (x :: y :: t).dropLast = x :: (y :: t).dropLast from rfl]
  rw [osumQ_cons, osumQ_append_single, pairDiffs_sum]
  simp only []
  congr 1
  ring

theorem timeoutFixStep_eq (fw : ℚ) (n : Nat) (wp wpa : List (Option ℚ))
    (a : Nat) (hlen : wp.length = n + 1) (ha : a + 1 ≤ n) :
    timeoutFixStep fw n (wp, wpa) a =
      some (wp, (wpa.set a (some 0)).set (a + 1) (tformula fw n wp a)) := by
  obtain ⟨c1, hc1⟩ := get_isSome wp (a + 1) (by omega)
  have hgd1 : wp.getD (a + 1) Option.none = c1 := by
    simp only [List.getD, hc1]
    rfl
  by_cases hc : a + 2 ≤ n
  · obtain ⟨c2, hc2⟩ := get_isSome wp (a + 2) (by omega)
    have hgd2 : wp.getD (a + 2) Option.none = c2 := by
      simp only [List.getD, hc2]
      rfl
    have hstep : timeoutFixStep fw n (wp, wpa) a =
        some (wp, (wpa.set a (some 0)).set (a + 1) (osub c2 c1)) := by
      simp only [timeoutFixStep, if_pos hc, hc2, hc1, Option.bind_eq_bind,
        Option.some_bind]
      rfl
    rw [hstep]
    simp only [tformula, if_pos hc, hgd1, hgd2]
  · have hstep : timeoutFixStep fw n (wp, wpa) a =
        some (wp, (wpa.set a (some 0)).set (a + 1) (osub (some fw) c1)) := by
      simp only [timeoutFixStep, if_neg hc, hc1, Option.bind_eq_bind,
        Option.some_bind]
      rfl
    rw [hstep]
    simp only [tformula, if_neg hc, hgd1]

theorem timeoutFold_frozen (fw : ℚ) (n : Nat) (wp : List (Option ℚ))
    (hlen : wp.length = n + 1) :
    ∀ ts : List Nat, (∀ a ∈ ts, a + 1 ≤ n) →
    ∀ wpa : List (Option ℚ), ∃ wpa2,
      ts.foldlM (timeoutFixStep fw n) (wp, wpa) = some (wp, wpa2) ∧
      ∀ i : Nat, (∀ a ∈ ts, a ≠ i ∧ a + 1 ≠ i) → wpa2.get? i = wpa.get? i := by
  intro ts
  induction ts with
  | nil => exact fun _ wpa => ⟨wpa, rfl, fun _ _ => rfl⟩
  | cons a l ih =>
    intro hts wpa
    have ha : a + 1 ≤ n := hts a (List.mem_cons_self a l)
    obtain ⟨wpa2, hfold, hfr⟩ := ih
      (fun b hb => hts b (List.mem_cons_of_mem a hb))
      ((wpa.set a (some 0)).set (a + 1) (tformula fw n wp a))
    refine ⟨wpa2, ?_, ?_⟩
    · simp only [List.foldlM, timeoutFixStep_eq fw n wp wpa a hlen ha,
        Option.bind_eq_bind, Option.some_bind]
      exact hfold
    · intro i hi
      have hia := hi a (List.mem_cons_self a l)
      rw [hfr i (fun b hb => hi b (List.mem_cons_of_mem a hb))]
      rw [my_get_set_ne _ _ _ _ hia.2]
      rw [my_get_set_ne _ _ _ _ hia.1]

theorem timeoutFold_wpa_at (fw : ℚ) (n : Nat) (wp : List (Option ℚ))
    (hlen : wp.length = n + 1) (ti : Nat) :
    ∀ ts : List Nat, ti ∈ ts → (∀ a ∈ ts, a + 1 ≤ n) →
      (∀ a ∈ ts, a = ti ∨ a + 1 < ti ∨ ti + 1 < a) →
    ∀ wpa : List (Option ℚ), wpa.length = n + 1 →
      ∃ wpa2, ts.foldlM (timeoutFixStep fw n) (wp, wpa) = some (wp, wpa2) ∧
        wpa2.get? ti = some (some 0) ∧
        wpa2.get? (ti + 1) = some (tformula fw n wp ti) := by
  intro ts
  induction ts with
  | nil => exact fun h => absurd h (List.not_mem_nil ti)
  | cons a l ih =>
    intro hmem hts hsep wpa hwlen
    have ha : a + 1 ≤ n := hts a (List.mem_cons_self a l)
    have hstep := timeoutFixStep_eq fw n wp wpa a hlen ha
    have hwlen2 :
        ((wpa.set a (some 0)).set (a + 1) (tformula fw n wp a)).length =
          n + 1 := by
      rw [List.length_set, List.length_set]
      exact hwlen
    by_cases hmem2 : ti ∈ l
    · obtain ⟨wpa2, hfold, hv1, hv2⟩ := ih hmem2
        (fun b hb => hts b (List.mem_cons_of_mem a hb))
        (fun b hb => hsep b (List.mem_cons_of_mem a hb))
        ((wpa.set a (some 0)).set (a + 1) (tformula fw n wp a)) hwlen2
      refine ⟨wpa2, ?_, hv1, hv2⟩
      simp only [List.foldlM, hstep, Option.bind_eq_bind, Option.some_bind]
      exact hfold
    · have haeq : a = ti := by
        rcases List.mem_cons.mp hmem with h | h
        · exact h.symm
        · exact absurd h hmem2
      subst haeq
      have hl : ∀ b ∈ l, b + 1 < a ∨ a + 1 < b := by
        intro b hb
        rcases hsep b (List.mem_cons_of_mem a hb) with h | h | h
        · exact absurd (h ▸ hb) hmem2
        · exact Or.inl h
        · exact Or.inr h
      obtain ⟨wpa2, hfold, hfroz⟩ := timeoutFold_frozen fw n wp hlen l
        (fun b hb => hts b (List.mem_cons_of_mem a hb))
        ((wpa.set a (some 0)).set (a + 1) (tformula fw n wp a))
      refine ⟨wpa2, ?_, ?_, ?_⟩
      · simp only [List.foldlM, hstep, Option.bind_eq_bind, Option.some_bind]
        exact hfold
      · rw [hfroz a (fun b hb => by rcases hl b hb with h | h <;> omega)]
        rw [my_get_set_ne _ _ _ _ (by omega : a + 1 ≠ a)]
        exact my_get_set_eq wpa a (some 0) (by omega)
      · rw [hfroz (a + 1) (fun b hb => by rcases hl b hb with h | h <;> omega)]
        exact my_get_set_eq _ _ _ (by rw [List.length_set]; omega)

theorem assemble_to_fold
    (initWP : Option ℚ → ℚ) (line : Option ℚ) (winner : Option Bool)
    (rows : List AsmRow) (x y : ℚ) (t : List ℚ)
    (h1 : rows.map (fun r => r.home_wp) = (x :: y :: t).map some)
    (h3 : firstPlayIdxs rows = [0]) :
    assemblePbp initWP line winner rows =
      (timeoutIdxs rows).foldlM
        (timeoutFixStep (finalWPOf winner) (t.length + 1))
        (some (initWP line) :: ((x :: y :: t).dropLast.map some),
         (some (x - initWP line) :: (pairDiffs (x :: y :: t)).map some).set
           (t.length + 1)
           (some (finalWPOf winner - lastQ (x :: y :: t).dropLast))) := by
  have hlen : rows.length = t.length + 2 := by
    simpa using congrArg List.length h1
  have hff : firstFixStep (initWP line)
      (Option.none :: ((x :: y :: t).dropLast.map some),
       Option.none :: (pairDiffs (x :: y :: t)).map some) 0 =
      some (some (initWP line) :: ((x :: y :: t).dropLast.map some),
            some (x - initWP line) :: (pairDiffs (x :: y :: t)).map some) := rfl
  simp only [assemblePbp]
  rw [h1, diffCol_map_some x (y :: t), shift_ffill_map_some x (y :: t), h3]
  simp only [List.foldlM]
  rw [hff]
  simp only [Option.bind_eq_bind, Option.some_bind, Option.pure_def]
  rw [show rows.length = Nat.succ (t.length + 1) from by omega]
  simp only []
  have hgd : (some (initWP line) :: ((x :: y :: t).dropLast.map some)).getD
      (t.length + 1) Option.none = some (lastQ (x :: y :: t).dropLast) := by
    have h := closedW_get_last (initWP line) x y t
    simp only [List.getD, h]
    rfl
  rw [hgd]
  rw [show osub (some (finalWPOf winner)) (some (lastQ (x :: y :: t).dropLast)) =
      some (finalWPOf winner - lastQ (x :: y :: t).dropLast) from rfl]

/-- C5 as amended: in a series in which every play has a recorded win
probability, the unique zero-secsElapsed play is the first, every
timeout has a following row, and no two timeouts sit on adjacent rows,
every timeout play's final WPA is exactly 0 and the immediately
following play's final WPA equals the lagged win probability two rows
after the timeout minus the lagged win probability one row after the
timeout (the timeout's own post-play value - not the pre-timeout value
the claim states), falling back to the terminal win probability minus
that same value when no row two later exists.  The recorded win
probability is free to move across the timeout row, where the two
formulas differ. -/
theorem timeout_wpa_corrected
    (initWP : Option ℚ → ℚ) (line : Option ℚ) (winner : Option Bool)
    (rows : List AsmRow) (x y : ℚ) (t : List ℚ) (ti : Nat)
    (h1 : rows.map (fun r => r.home_wp) = (x :: y :: t).map some)
    (h3 : firstPlayIdxs rows = [0])
    (h4 : ∀ u ∈ timeoutIdxs rows, u + 1 < rows.length)
    (h5 : ∀ u ∈ timeoutIdxs rows, u = ti ∨ u + 1 < ti ∨ ti + 1 < u)
    (hti : ti ∈ timeoutIdxs rows) :
    ∃ wpCol wpaCol, assemblePbp initWP line winner rows = some (wpCol, wpaCol) ∧
      wpaCol.get? ti = some (some 0) ∧
      (if ti + 2 ≤ rows.length - 1 then
        wpaCol.get? (ti + 1) =
          some (osub (wpCol.getD (ti + 2) Option.none)
                     (wpCol.getD (ti + 1) Option.none))
      else
        wpaCol.get? (ti + 1) =
          some (osub (some (finalWPOf winner))
                     (wpCol.getD (ti + 1) Option.none))) := by
  have hlen : rows.length = t.length + 2 := by
    simpa using congrArg List.length h1
  have hWlen : (some (initWP line) ::
      ((x :: y :: t).dropLast.map some)).length = (t.length + 1) + 1 := by
    simp
  have hA2len : ((some (x - initWP line) ::
      (pairDiffs (x :: y :: t)).map some).set (t.length + 1)
        (some (finalWPOf winner - lastQ (x :: y :: t).dropLast))).length =
      (t.length + 1) + 1 := by
    rw [List.length_set]
    simp [pairDiffs_length]
  obtain ⟨wpa2, hfold, hv1, hv2⟩ := timeoutFold_wpa_at (finalWPOf winner)
    (t.length + 1)
    (some (initWP line) :: ((x :: y :: t).dropLast.map some)) hWlen ti
    (timeoutIdxs rows) hti
    (fun a hma => by have := h4 a hma; omega) h5
    ((some (x - initWP line) :: (pairDiffs (x :: y :: t)).map some).set
      (t.length + 1)
      (some (finalWPOf winner - lastQ (x :: y :: t).dropLast))) hA2len
  refine ⟨some (initWP line) :: ((x :: y :: t).dropLast.map some), wpa2,
    (assemble_to_fold initWP line winner rows x y t h1 h3).trans hfold,
    hv1, ?_⟩
  rw [show rows.length - 1 = t.length + 1 from by omega]
  by_cases hc : ti + 2 ≤ t.length + 1
  · rw [if_pos hc, hv2]
    simp only [tformula, if_pos hc]
  · rw [if_neg hc, hv2]
    simp only [tformula, if_neg hc]

theorem timeoutFold_preserves_wp (fw : ℚ) (n : Nat)
    (wp : List (Option ℚ)) (ts : List Nat)
    (hlen : wp.length = n + 1) (hts : ∀ a ∈ ts, a + 1 ≤ n) :
    ∀ wpa, ∃ wpa2,
      ts.foldlM (timeoutFixStep fw n) (wp, wpa) = some (wp, wpa2) := by
  induction ts with
  | nil => exact fun wpa => ⟨wpa, rfl⟩
  | cons a l ih =>
    intro wpa
    have ha := hts a (List.mem_cons_self a l)
    obtain ⟨c1, hc1⟩ := get_isSome wp (a + 1) (by omega)
    by_cases hc : a + 2 ≤ n
    · obtain ⟨c2, hc2⟩ := get_isSome wp (a + 2) (by omega)
      have hstep : timeoutFixStep fw n (wp, wpa) a =
          some (wp, (wpa.set a (some 0)).set (a + 1) (osub c2 c1)) := by
        simp only [timeoutFixStep, if_pos hc, hc2, hc1, Option.bind_eq_bind,
          Option.some_bind]
        rfl
      simp only [List.foldlM, hstep, Option.bind_eq_bind, Option.some_bind]
      exact ih (fun b hb => hts b (List.mem_cons_of_mem a hb)) _
    · have hstep : timeoutFixStep fw n (wp, wpa) a =
          some (wp, (wpa.set a (some 0)).set (a + 1) (osub (some fw) c1)) := by
        simp only [timeoutFixStep, if_neg hc, hc1, Option.bind_eq_bind,
          Option.some_bind]
        rfl
      simp only [List.foldlM, hstep, Option.bind_eq_bind, Option.some_bind]
      exact ih (fun b hb => hts b (List.mem_cons_of_mem a hb)) _

/-- C9 as amended: when the point spread is absent (line is None), the
assembly does not skip the first-play boundary correction and reports
nothing: it still calls the external initial-win-probability model on
None and writes the result into the first play's win probability. -/
theorem missing_context_corrected
    (initWP : Option ℚ → ℚ) (winner : Option Bool) (rows : List AsmRow)
    (h2 : 2 ≤ rows.length)
    (h3 : firstPlayIdxs rows = [0])
    (h4 : ∀ ti ∈ timeoutIdxs rows, ti + 1 < rows.length) :
    ∃ wpCol wpaCol,
      assemblePbp initWP Option.none winner rows = some (wpCol, wpaCol) ∧
      wpCol.get? 0 = some (some (initWP Option.none)) := by
  have hl0 : (ffillQ Option.none
      (shiftCol (rows.map (fun r => r.home_wp)))).length = rows.length := by
    rw [ffillQ_length, shiftCol_length, List.length_map]
  obtain ⟨c1, hc1⟩ := get_isSome
    ((ffillQ Option.none (shiftCol (rows.map (fun r => r.home_wp)))).set 0
      (some (initWP Option.none))) 1 (by rw [List.length_set]; omega)
  have hff : firstFixStep (initWP Option.none)
      (ffillQ Option.none (shiftCol (rows.map (fun r => r.home_wp))),
       diffCol (rows.map (fun r => r.home_wp))) 0 =
      some ((ffillQ Option.none (shiftCol (rows.map (fun r => r.home_wp)))).set 0
              (some (initWP Option.none)),
            (diffCol (rows.map (fun r => r.home_wp))).set 0
              (osub c1 (some (initWP Option.none)))) := by
    simp only [firstFixStep, Option.bind_eq_bind]
    rw [hc1]
    simp only [Option.some_bind]
    rfl
  obtain ⟨m, hm⟩ : ∃ m, rows.length = Nat.succ (m + 1) := ⟨rows.length - 2, by omega⟩
  have hfold := timeoutFold_preserves_wp (finalWPOf winner) (m + 1)
    ((ffillQ Option.none (shiftCol (rows.map (fun r => r.home_wp)))).set 0
      (some (initWP Option.none)))
    (timeoutIdxs rows)
    (by rw [List.length_set, hl0]; omega)
    (fun a hma => by have := h4 a hma; omega)
    (((diffCol (rows.map (fun r => r.home_wp))).set 0
        (osub c1 (some (initWP Option.none)))).set (m + 1)
      (osub (some (finalWPOf winner))
        (((ffillQ Option.none (shiftCol (rows.map (fun r => r.home_wp)))).set 0
            (some (initWP Option.none))).getD (m + 1) Option.none)))
  obtain ⟨wpa2, hw2⟩ := hfold
  refine ⟨(ffillQ Option.none (shiftCol (rows.map (fun r => r.home_wp)))).set 0
            (some (initWP Option.none)), wpa2, ?_, ?_⟩
  · have hmain : assemblePbp initWP Option.none winner rows =
        (timeoutIdxs rows).foldlM
          (timeoutFixStep (finalWPOf winner) (m + 1))
          ((ffillQ Option.none (shiftCol (rows.map (fun r => r.home_wp)))).set 0
             (some (initWP Option.none)),
           ((diffCol (rows.map (fun r => r.home_wp))).set 0
               (osub c1 (some (initWP Option.none)))).set (m + 1)
             (osub (some (finalWPOf winner))
               (((ffillQ Option.none
                    (shiftCol (rows.map (fun r => r.home_wp)))).set 0
                   (some (initWP Option.none))).getD (m + 1) Option.none))) := by
      simp only [assemblePbp]
      rw [h3]
      simp only [List.foldlM]
      rw [hff]
      simp only [Option.bind_eq_bind, Option.some_bind, Option.pure_def]
      rw [hm]
    exact hmain.trans hw2
  · exact my_get_set_eq _ _ _ (by rw [hl0]; omega)

unseal Rat.sub Rat.add in
/-- C2 counterexample: on a three-play game whose recorded win
probability moves from 60 to 70 across the timeout row, zeroing the
timeout's WPA removes that movement from the sum: the WPA column sums
to 40, and initial 50 plus 40 is 90, not the terminal 100. -/
theorem wpa_telescoping_cex :
    (assemblePbp (fun _ => 50) (some (-3)) (some true)
        [⟨some 60, false, some 0⟩, ⟨some 70, true, some 500⟩,
         ⟨some 55, false, some 900⟩]).map (fun res => osumQ res.2) =
      some (some 40) ∧
    ¬ ((50 : ℚ) + 40 = finalWPOf (some true)) := by
  constructor
  · decide
  · decide

theorem wpa_telescoping_corrected_witness :
    ∃ res, assemblePbp (fun _ => 50) (some (-3)) (some true)
        [⟨some 60, false, some 0⟩, ⟨some 60, true, some 500⟩,
         ⟨some 55, false, some 900⟩] = some res ∧
      osumQ res.2 = some (finalWPOf (some true) - 50) :=
  wpa_telescoping_corrected (fun _ => 50) (some (-3)) (some true)
    [⟨some 60, false, some 0⟩, ⟨some 60, true, some 500⟩,
     ⟨some 55, false, some 900⟩] 60 60 [55]
    (by decide) (by decide) (by decide)

unseal Rat.sub Rat.add in
/-- C5 counterexample: on a four-play game with a timeout at row 1 and
lagged win probabilities [50, 60, 70, 80], the code computes the
following play's WPA as wp[3] - wp[2] = 10, whereas the claim's formula
(win probability two plays later minus the win probability immediately
before the timeout) gives wp[3] - wp[1] = 20. -/
theorem timeout_wpa_cex :
    (assemblePbp (fun _ => 50) (some (-3)) (some true)
        [⟨some 60, false, some 0⟩, ⟨some 70, true, some 500⟩,
         ⟨some 80, false, some 900⟩, ⟨some 55, false, some 1200⟩]).map
        (fun res => (res.2.get? 2,
          osub (res.1.getD 3 Option.none) (res.1.getD 1 Option.none))) =
      some (some (some 10), some 20) ∧
    ¬ (some (10 : ℚ) = some (20 : ℚ)) := by
  constructor
  · decide
  · decide

theorem timeout_wpa_corrected_witness :
    ∃ wpCol wpaCol,
      assemblePbp (fun _ => 50) (some (-3)) (some true)
        [⟨some 60, false, some 0⟩, ⟨some 70, true, some 500⟩,
         ⟨some 80, false, some 900⟩, ⟨some 55, false, some 1200⟩] =
        some (wpCol, wpaCol) ∧
      wpaCol.get? 1 = some (some 0) ∧
      wpaCol.get? 2 = some (osub (wpCol.getD 3 Option.none)
                                 (wpCol.getD 2 Option.none)) :=
  timeout_wpa_corrected (fun _ => 50) (some (-3)) (some true)
    [⟨some 60, false, some 0⟩, ⟨some 70, true, some 500⟩,
     ⟨some 80, false, some 900⟩, ⟨some 55, false, some 1200⟩] 60 70 [80, 55] 1
    (by decide) (by decide) (by decide) (by decide) (by decide)

unseal Rat.sub Rat.add in
/-- C9 counterexample: with the point spread absent the code does not
skip the first-play correction: its output differs from the
specification's skip-on-missing-context variant, and the first play's
win probability is the initial-win-probability model applied to None
(37 under the model used here). -/
theorem missing_context_cex :
    assemblePbp (fun _ => 37) Option.none (some true)
        [⟨some 60, false, some 0⟩, ⟨some 55, false, some 900⟩] ≠
      assemblePbpSkipSpec (fun _ => 37) Option.none (some true)
        [⟨some 60, false, some 0⟩, ⟨some 55, false, some 900⟩] ∧
    (assemblePbp (fun _ => 37) Option.none (some true)
        [⟨some 60, false, some 0⟩, ⟨some 55, false, some 900⟩]).map
      (fun res => res.1.get? 0) = some (some (some 37)) := by
  constructor
  · decide
  · decide

theorem missing_context_corrected_witness :
    ∃ wpCol wpaCol,
      assemblePbp (fun _ => 37) Option.none (some true)
        [⟨some 60, false, some 0⟩, ⟨some 55, false, some 900⟩] =
        some (wpCol, wpaCol) ∧
      wpCol.get? 0 = some (some 37) :=
  missing_context_corrected (fun _ => 37) (some true)
    [⟨some 60, false, some 0⟩, ⟨some 55, false, some 900⟩]
    (by decide) (by decide) (by decide)

end NflStats
